import Mathlib

/-!
# jobthing: a shallow embedding of `jobthing.c`

The development models the job-file loader, the initial spawn pass and the
supervisor loop of `main` in `src/jobthing.c`.

Conventions of the embedding.

* C strings are `List Char` (no embedded NUL).
* The parallel C arrays `jobList[i]`, `signals[i]` (rows `1..jobCount`, row 0 of
  `jobList` is never used) become one list of `Slot`s; C index `i` is list
  position `i - 1`.
* `int` counters that the program only ever increments by one per supervisor
  tick (`runs`, `linesto`, `viableWorkers`) are unbounded integers; values
  produced by `strtol` and narrowed to `int` are wrapped explicitly.
* Everything the operating system decides (results of `open`, `waitpid`,
  `fork`, `kill`, `read_line`) is an explicit input of the model.
* Calls with an observable effect (`printf`, `fprintf`, `kill`, `spawn_child`,
  `read_line(stdin)`, `write`, `usleep`, `exit`) are recorded as `Event`s.
* `loadLine` and `loadJobs` are the loading loop when every iteration runs to
  its end; `loadStep` and `loadFile` add the iterations that stop the program
  (`free` of the pointer moved by `trim_whitespace`, a command that overruns
  `jobCmd[500]` by more than the terminating NUL).
-/

namespace Jobthing

/-! ## Text primitives -/

/-- The C library `isspace` in the "C" locale: space, `\t`, `\n`, `\v`, `\f`, `\r`. -/
def isspace (c : Char) : Bool :=
  c.toNat == 32 || (9 ≤ c.toNat && c.toNat ≤ 13)

/-- The C library `isdigit`. -/
def isdigit (c : Char) : Bool :=
  48 ≤ c.toNat && c.toNat ≤ 57

/-- `trim_whitespace`: skip leading `isspace` characters; if anything is left,
cut the string after its last non-space character. -/
def trim_whitespace (str : List Char) : List Char :=
  (str.dropWhile isspace).rdropWhile isspace

/-- `count_colons`: the number of `':'` characters of the line. -/
def count_colons : List Char → Nat
  | [] => 0
  | c :: cs => if c = ':' then count_colons cs + 1 else count_colons cs

/-- Modelled from the spec: `split_line` of the course library `csse2310a3`,
which is not part of the sources.  The line is cut at every occurrence of the
delimiter; empty fields are kept, so a line with `k` delimiters yields `k + 1`
fields ("exactly four colon-separated fields", "Fields 2/3 empty"). -/
def split_line : List Char → Char → List (List Char)
  | [], _ => [[]]
  | c :: cs, d =>
    if c = d then [] :: split_line cs d
    else
      match split_line cs d with
      | [] => [[c]]
      | f :: fs => (c :: f) :: fs

/-- Scan of the decimal digits at the front of a string: accumulated value,
whether at least one digit was consumed, and the unconsumed rest. -/
def scanDigits : List Char → Nat → Bool → Nat × Bool × List Char
  | [], acc, any => (acc, any, [])
  | c :: cs, acc, any =>
    if isdigit c then scanDigits cs (acc * 10 + (c.toNat - 48)) true
    else (acc, any, c :: cs)

/-- Result of `strtol(s, &endptr, 10)`: the returned `long`, the text `endptr`
points at, and whether a conversion was performed (`endptr != s`). -/
structure StrtolResult where
  value : Int
  rest : List Char
  converted : Bool
  deriving DecidableEq, Repr

/-- Saturation of `strtol` at `LONG_MIN` / `LONG_MAX` (64-bit `long`). -/
def clampLong (v : Int) : Int :=
  if v > 9223372036854775807 then 9223372036854775807
  else if v < -9223372036854775808 then -9223372036854775808
  else v

/-- The C library `strtol` in base 10: leading `isspace` characters are
skipped, one optional sign is read, then the longest run of decimal digits.
Without any digit no conversion is performed: the value is 0 and `endptr`
is the start of the string. -/
def strtol (s : List Char) : StrtolResult :=
  let s1 := s.dropWhile isspace
  let neg := s1.head? == some '-'
  let s2 := if s1.head? == some '-' || s1.head? == some '+' then s1.tail else s1
  match scanDigits s2 0 false with
  | (n, true, rest) =>
    { value := clampLong (if neg then -(n : Int) else (n : Int)), rest := rest, converted := true }
  | (_, false, _) => { value := 0, rest := s, converted := false }

/-- Conversion of a `long` to a 32-bit `int` (`int x = strtol(...)`): the value
is reduced modulo `2^32` into `[-2^31, 2^31)`. -/
def toInt32 (v : Int) : Int :=
  (v + 2147483648) % 4294967296 - 2147483648

/-- Tokenizer core: cut at whitespace that is outside double quotes (the
quote character is code 34); `cur` is the token being collected, reversed,
`inTok` tells whether a token is open, `inQuote` whether a quote is open. -/
def tokenize : List Char → List Char → Bool → Bool → List (List Char)
  | [], cur, inTok, _ => if inTok then [cur.reverse] else []
  | c :: cs, cur, inTok, inQuote =>
    if c = Char.ofNat 34 then tokenize cs cur true (!inQuote)
    else if isspace c && !inQuote then
      if inTok then cur.reverse :: tokenize cs [] false false
      else tokenize cs [] false false
    else tokenize cs (c :: cur) true inQuote

/-- Modelled from the spec: `split_space_not_quote` of the course library
`csse2310a3`, which is not part of the sources: "tokenized into argv by
whitespace, honoring quoted substrings as single tokens".  The loader only
uses the number of tokens. -/
def split_space_not_quote (s : List Char) : List (List Char) :=
  tokenize s [] false false

/-! ## The job table -/

/-- The fields of the C struct `JobProps` that the supervisor logic reads or
writes.  `jobInput` / `jobOutput` hold a file descriptor, `-2` for pipe mode,
or `-1` for a failed `open`.  The pipe descriptor pairs and the raw wait
status are operating-system values and are not represented. -/
structure JobProps where
  jobID : Int
  jobInput : Int
  jobOutput : Int
  restartCount : Int
  jobCmd : List Char
  infiniteRestart : Bool
  runnable : Bool
  ended : Bool
  runs : Int
  linesto : Int
  deriving DecidableEq, Repr

/-- What the loader is given from outside: the `-v` flag, the token count
reported by `split_space_not_quote` for a command string, and the outcome of
the two `open` calls made while registering job `k` (`none` is the C result
`-1`, `some fd` a descriptor). -/
structure LoadEnv where
  verboseFlag : Bool
  tokenCount : List Char → Nat
  openInput : Nat → List Char → Option Nat
  openOutput : Nat → List Char → Option Nat

/-- The local variables of `main` that live across iterations of the loading
loop.  `numRestarts` is declared without an initialiser inside the loop body;
the model keeps its storage across iterations, so a line that does not assign
it sees the value left there before. -/
structure LoadState where
  jobCount : Nat
  invalidJobs : Nat
  arraySize : Nat
  numRestarts : Int
  jobList : List JobProps
  deriving DecidableEq, Repr

/-- State before the first line: `jobCount = 0`, `invalidJobs = 0`,
`arraySize = 2`; `garbage` is the indeterminate content of `numRestarts`. -/
def LoadState.initial (garbage : Int) : LoadState :=
  { jobCount := 0, invalidJobs := 0, arraySize := 2, numRestarts := garbage, jobList := [] }

/-- Lines 138-155: the value of `numRestarts` after the first field has been
looked at.  A non-empty field is parsed by `strtol` and narrowed to `int`.
For an empty field the `else if (strcmp(jobSpecs[0], "") != 0)` arm cannot be
taken, so nothing is assigned. -/
def parseNumRestarts (stale : Int) (field : List Char) : Int :=
  if field ≠ [] then toInt32 (strtol field).value
  else if field ≠ [] then 0
  else stale

/-- Lines 139-152: the first field is rejected when it is non-empty and
`strtol` converted nothing, left trailing characters, or gave a negative
`int`. -/
def badNumRestarts (field : List Char) : Bool :=
  field ≠ [] &&
    (!(strtol field).converted || (strtol field).rest ≠ [] || toInt32 (strtol field).value < 0)

/-- Lines 176-183: growth of the arrays after `jobCount++`. -/
def growArray (jobCount arraySize : Nat) : Nat :=
  if jobCount = arraySize - 1 then arraySize * 2 else arraySize

/-- Line 188: `strcpy(jobList[jobCount].jobCmd, jobSpecsCopy)` copies the
command into `char jobCmd[500]`, after `runnable = true` at line 185.  In the
record `jobCmd` is followed by the flags `infiniteRestart`, `runnable`,
`ended`.  A command of up to 499 characters fits.  With 500 characters the
terminating NUL falls on `infiniteRestart`, which is assigned afterwards
(lines 202-206).  With 501 characters the NUL falls on `runnable` and clears
it.  Longer commands put other bytes on the flags and on what lies behind
them; `stepStops` keeps such lines out of the loader outcome `loadFile`, and
here they count like 501 characters. -/
def runnableAfterCopy (jobCmd : List Char) : Bool :=
  decide (jobCmd.length ≤ 500)

/-- Lines 184-249: registration of an accepted line as job `jobCount`.
Returns the job record and whether it was counted in `invalidJobs`.  When the
input file cannot be opened the loop `continue`s before `jobOutput` is
assigned; the field then keeps the zero of the model. -/
def registerJob (env : LoadEnv) (jobCount : Nat) (numRestarts : Int)
    (jobInput jobOutput jobCmd : List Char) : JobProps × Bool :=
  let job : JobProps :=
    { jobID := jobCount, jobInput := 0, jobOutput := 0, restartCount := numRestarts,
      jobCmd := jobCmd, infiniteRestart := decide (numRestarts = 0),
      runnable := runnableAfterCopy jobCmd, ended := false, runs := 0, linesto := 0 }
  if jobInput.length ≠ 0 then
    match env.openInput jobCount jobInput with
    | none => ({ job with jobInput := -1, runnable := false }, true)
    | some fdIn =>
      if jobOutput.length ≠ 0 then
        match env.openOutput jobCount jobOutput with
        | none => ({ job with jobInput := fdIn, jobOutput := -1, runnable := false }, true)
        | some fdOut => ({ job with jobInput := fdIn, jobOutput := fdOut }, false)
      else ({ job with jobInput := fdIn, jobOutput := -2 }, false)
  else
    if jobOutput.length ≠ 0 then
      match env.openOutput jobCount jobOutput with
      | none => ({ job with jobInput := -2, jobOutput := -1, runnable := false }, true)
      | some fdOut => ({ job with jobInput := -2, jobOutput := fdOut }, false)
    else ({ job with jobInput := -2, jobOutput := -2 }, false)

/-- One iteration of the loading loop (lines 121-262) on one line returned by
`read_line(jobFile)`, when the iteration runs to its end: the variables after
it.  Diagnostics printed on the way are not part of the job table and are
left out.  The calls `free(jobLine)` can end the program inside the
iteration; when they do is `stepStops`, and the loader with these stops is
`loadFile`. -/
def loadLine (env : LoadEnv) (st : LoadState) (raw : List Char) : LoadState :=
  let jobLine := trim_whitespace raw
  if jobLine.head? = some '#' ∨ jobLine.length = 0 then st
  else if count_colons jobLine ≠ 3 then st
  else
    let jobSpecs := split_line jobLine ':'
    let numRestarts := parseNumRestarts st.numRestarts (jobSpecs.getD 0 [])
    if badNumRestarts (jobSpecs.getD 0 []) then { st with numRestarts := numRestarts }
    else if (jobSpecs.getD 3 []).head? ≠ some ' ' then
      if env.tokenCount (jobSpecs.getD 3 []) = 0 then { st with numRestarts := numRestarts }
      else
        let jobCount := st.jobCount + 1
        let reg := registerJob env jobCount numRestarts (jobSpecs.getD 1 []) (jobSpecs.getD 2 [])
          (jobSpecs.getD 3 [])
        { jobCount := jobCount
          invalidJobs := if reg.2 then st.invalidJobs + 1 else st.invalidJobs
          arraySize := growArray jobCount st.arraySize
          numRestarts := numRestarts
          jobList := st.jobList ++ [reg.1] }
    else { st with numRestarts := numRestarts }

/-- The whole loading loop when no iteration stops the program: `loadLine`
over the lines of the job file. -/
def loadJobs (env : LoadEnv) (garbage : Int) (lines : List (List Char)) : LoadState :=
  lines.foldl (loadLine env) (LoadState.initial garbage)

/-! ## Effects and external inputs of the supervisor -/

/-- Observable actions of `main`, in program order.  Job numbers are the C
loop index (`1..jobCount`). -/
inductive Event where
  /-- Call of `spawn_child` for job `i`. -/
  | spawn (i : Nat)
  /-- Line `fork() failed!` on stderr. -/
  | forkFailed
  /-- Line `Spawning worker i` (verbose). -/
  | spawning (i : Nat)
  /-- Line `Job i has terminated with exit code c`. -/
  | exitedWith (i : Nat) (c : Int)
  /-- Line `Job i has terminated due to signal s`. -/
  | signaledWith (i : Nat) (s : Int)
  /-- Call `kill(pids[i], sig)`. -/
  | kill (i : Int) (sig : Int)
  /-- Line `Restarting worker i` on stderr (verbose). -/
  | restarting (i : Nat)
  /-- Line `No more viable workers, exiting` on stderr. -/
  | noMoreViable
  /-- Call `read_line(stdin)`. -/
  | readLine
  /-- Line `Error: Incorrect number of arguments`. -/
  | incorrectArgs
  /-- Line `Error: Invalid job`. -/
  | invalidJob
  /-- Line `Error: Invalid signal`. -/
  | invalidSignal
  /-- Line `Error: Invalid duration`. -/
  | invalidDuration
  /-- Line `Error: Bad command` followed by the quoted command. -/
  | badCommand (cmd : List Char)
  /-- Line `Kill error` on stderr. -/
  | killError
  /-- Call `usleep(us)`. -/
  | usleep (us : Int)
  /-- The two `write` calls of a broadcast on job `j`. -/
  | write (j : Nat) (line : List Char)
  /-- Echo line of a broadcast to pipe-input job `j`. -/
  | forwarded (j : Nat) (line : List Char)
  /-- Relay line for a line read from the output pipe of job `j`. -/
  | relayed (j : Nat) (line : List Char)
  /-- Line `Received EOF from job j` on stderr (verbose). -/
  | eofFrom (j : Nat)
  deriving DecidableEq, Repr

/-- Termination of the whole program by `exit(code)`, with everything that was
observable up to then. -/
structure Halt where
  code : Int
  trace : List Event
  deriving DecidableEq, Repr

/-- One index of the parallel arrays: `jobList[i]` together with the cells
`signals[i][1]` and `signals[i][2]` of the global table. -/
structure Slot where
  job : JobProps
  sigRuns : Int
  sigLines : Int
  deriving DecidableEq, Repr

/-- The variables of `main` that the supervisor loop works on. -/
structure Sup where
  jobList : List Slot
  viableWorkers : Int
  trace : List Event
  deriving DecidableEq, Repr

/-- What `waitpid(pids[i], &status, WNOHANG)` gave: its return value and the
readings of the status word through `WIFEXITED`, `WEXITSTATUS`, `WIFSIGNALED`,
`WTERMSIG`. -/
structure WaitResult where
  ret : Int
  ifExited : Bool
  exitStatus : Int
  ifSignaled : Bool
  termSig : Int
  deriving DecidableEq, Repr

/-- Everything the outside world contributes to one iteration of the
supervisor loop: the wait result for each job, whether `fork` succeeds when
job `i` is respawned, the line from `read_line(stdin)` (`none` when the call
returns `NULL`: at end of input, or when descriptor 0 has been closed), the
return value of `kill` for a `*signal` command, and the line read from the
output pipe of each job (`none` at end of stream). -/
structure TickInput where
  waits : Nat → WaitResult
  forkOk : Nat → Bool
  inputLine : Option (List Char)
  killRet : Int
  pipeLine : Nat → Option (List Char)

/-! ## Start-up -/

/-- The parent side of `spawn_child` (lines 541-592): when `fork` fails the
message is printed and the program leaves through `exit(0)`; otherwise the
call returns to `main`. -/
def spawn_child (i : Nat) (forkOk : Bool) (tr : List Event) : Except Halt (List Event) :=
  if forkOk then .ok (tr ++ [Event.spawn i])
  else .error { code := 0, trace := tr ++ [Event.spawn i, Event.forkFailed] }

/-- Lines 269-276: every counter of rows `1..jobCount` is set to zero. -/
def initCounters (jobs : List JobProps) : List Slot :=
  jobs.map fun j => { job := { j with runs := 0, linesto := 0 }, sigRuns := 0, sigLines := 0 }

/-- Lines 277-290: the initial spawn pass from index `i` on. -/
def spawnLoop (verbose : Bool) (forkOk : Nat → Bool) :
    Nat → List Slot → List Event → Except Halt (List Slot × List Event)
  | _, [], tr => .ok ([], tr)
  | i, s :: rest, tr =>
    if s.job.runnable then
      match spawn_child i (forkOk i) tr with
      | .error h => .error h
      | .ok tr1 =>
        match spawnLoop verbose forkOk (i + 1) rest
            (if verbose then tr1 ++ [Event.spawning i] else tr1) with
        | .error h => .error h
        | .ok (rest1, tr2) =>
          .ok ({ s with job := { s.job with runs := s.job.runs + 1 },
                        sigRuns := s.job.runs + 1 } :: rest1, tr2)
    else
      match spawnLoop verbose forkOk (i + 1) rest tr with
      | .error h => .error h
      | .ok (rest1, tr2) => .ok (s :: rest1, tr2)

/-- Line 267: `viableWorkers = jobCount - invalidJobs`. -/
def initialViable (st : LoadState) : Int :=
  (st.jobCount : Int) - (st.invalidJobs : Int)

/-- Lines 266-291 on a loaded table: `viableWorkers = jobCount - invalidJobs`,
counters zeroed, runnable jobs spawned. -/
def startFrom (verbose : Bool) (forkOk : Nat → Bool) (st : LoadState) : Except Halt Sup :=
  match spawnLoop verbose forkOk 1 (initCounters st.jobList) [] with
  | .error h => .error h
  | .ok (jobs, tr) =>
    .ok { jobList := jobs, viableWorkers := initialViable st, trace := tr }

/-- Lines 115-291: the job file is loaded and the initial spawn pass runs. -/
def startup (env : LoadEnv) (garbage : Int) (forkOk : Nat → Bool) (lines : List (List Char)) :
    Except Halt Sup :=
  startFrom env.verboseFlag forkOk (loadJobs env garbage lines)

/-! ## The supervisor loop -/

/-- Lines 295-344: the body of the reap loop for job `i`.  The first component
of `r` is the `ended` flag after the wait result has been looked at.  The
four `close` calls of lines 316-321 act on the descriptor numbers held in the
record and change no variable of `main`; they are not represented.  For a job
with a file redirect the pipe of that direction was never created, so the
numbers are whatever the record holds, and such a `close` can hit descriptor
0; from then on `read_line(stdin)` returns `NULL`, which is for the external
input `inputLine` to reflect. -/
def reapJob (verbose : Bool) (w : WaitResult) (forkOk : Bool) (i : Nat) (s : Slot)
    (v : Int) (tr : List Event) : Except Halt (Slot × Int × List Event) :=
  if s.job.runnable && !s.job.ended then
    let r : Bool × Int × List Event :=
      if w.ret = 0 then (false, v, tr)
      else if w.ifExited then
        (true, v - 1, tr ++ [Event.exitedWith i w.exitStatus, Event.kill i 9])
      else if w.ifSignaled then
        (true, v - 1, tr ++ [Event.signaledWith i w.termSig, Event.kill i 9])
      else (s.job.ended, v, tr)
    if s.job.runs < s.job.restartCount ∨ s.job.infiniteRestart = true then
      if r.1 then
        match spawn_child i forkOk r.2.2 with
        | .error h => .error h
        | .ok tr1 =>
          .ok ({ s with job := { s.job with ended := false, runs := s.job.runs + 1 },
                        sigRuns := s.job.runs + 1 },
               r.2.1 + 1, if verbose then tr1 ++ [Event.restarting i] else tr1)
      else .ok ({ s with job := { s.job with ended := r.1 } }, r.2.1, r.2.2)
    else if s.job.runs > s.job.restartCount ∧ s.job.infiniteRestart = false then
      .ok ({ s with job := { s.job with runnable := false, ended := true } }, r.2.1, r.2.2)
    else .ok ({ s with job := { s.job with ended := r.1 } }, r.2.1, r.2.2)
  else .ok (s, v, tr)

/-- Lines 294-345: the reap loop from index `i` on. -/
def reapLoop (verbose : Bool) (t : TickInput) :
    Nat → List Slot → Int → List Event → Except Halt (List Slot × Int × List Event)
  | _, [], v, tr => .ok ([], v, tr)
  | i, s :: rest, v, tr =>
    match reapJob verbose (t.waits i) (t.forkOk i) i s v tr with
    | .error h => .error h
    | .ok (s1, v1, tr1) =>
      match reapLoop verbose t (i + 1) rest v1 tr1 with
      | .error h => .error h
      | .ok (rest1, v2, tr2) => .ok (s1 :: rest1, v2, tr2)

/-- The locals `num`, `signum`, `invalidNum`, `invalidSigNum` after lines
371-398. -/
structure CmdArgs where
  num : Int
  signum : Int
  invalidNum : Bool
  invalidSigNum : Bool
  deriving DecidableEq, Repr

/-- Lines 371-398: both numbers start as `-111`.  When `inputSplit[1]` is
present it is parsed by `strtol`; when `inputSplit[2]` is present and not
empty it is parsed too.  A missing array entry is `none` (the C code reads
`inputSplit[2]` also when `inputSplit[1]` is the terminating null; that read
is taken to find nothing). -/
def parseArgs (inputSplit : List (List Char)) : CmdArgs :=
  let a : Int × Bool :=
    match inputSplit[1]? with
    | some tok => (toInt32 (strtol tok).value, !(strtol tok).converted || (strtol tok).rest ≠ [])
    | none => (-111, false)
  let b : Int × Bool :=
    match inputSplit[2]? with
    | some tok =>
      if tok.length ≠ 0 then
        (toInt32 (strtol tok).value, !(strtol tok).converted || (strtol tok).rest ≠ [])
      else (-111, false)
    | none => (-111, false)
  { num := a.1, signum := b.1, invalidNum := a.2, invalidSigNum := b.2 }

/-- The flag `jobList[num].ended` for `1 <= num <= jobCount`. -/
def endedAt (jobs : List Slot) (num : Int) : Bool :=
  match jobs[(num - 1).toNat]? with
  | some s => s.job.ended
  | none => false

/-- Lines 399-429: the `*signal` command on parsed arguments; the events it
causes. -/
def signalCommand (jobs : List Slot) (killRet : Int) (a : CmdArgs) : List Event :=
  if a.num = -111 ∨ a.signum = -111 then [Event.incorrectArgs]
  else if a.num > (jobs.length : Int) ∨ a.num < 1 ∨ endedAt jobs a.num = true
      ∨ a.invalidNum = true then [Event.invalidJob]
  else if a.signum < 1 ∨ a.signum > 31 ∨ a.invalidSigNum = true then [Event.invalidSignal]
  else if killRet = -1 then [Event.kill a.num a.signum, Event.killError]
  else [Event.kill a.num a.signum]

/-- Lines 430-446: the `*sleep` command on parsed arguments.  The argument
of `usleep` is the `int` product `num * 1000`, which wraps. -/
def sleepCommand (a : CmdArgs) : List Event :=
  if a.num = -111 ∨ a.signum ≠ -111 then [Event.incorrectArgs]
  else if a.num < 0 ∨ a.invalidNum = true then [Event.invalidDuration]
  else [Event.usleep (toInt32 (a.num * 1000))]

/-- Lines 366-451: an operator line that starts with `*`.  The line is split
at single spaces; the first field selects the command.  No branch changes the
job table and every branch ends with `continue`. -/
def commandConsole (jobs : List Slot) (killRet : Int) (inputLine : List Char) : List Event :=
  let inputSplit := split_line inputLine ' '
  let command := inputSplit.getD 0 []
  if command = "*signal".toList then signalCommand jobs killRet (parseArgs inputSplit)
  else if command = "*sleep".toList then sleepCommand (parseArgs inputSplit)
  else [Event.badCommand command]

/-- Lines 453-470: the broadcast of an operator line, from index `j` on.  The
two `close` calls of lines 455-456 are not represented, as in `reapJob`. -/
def broadcastLoop (inputLine : List Char) : Nat → List Slot → List Slot × List Event
  | _, [] => ([], [])
  | j, s :: rest =>
    let r := broadcastLoop inputLine (j + 1) rest
    if !s.job.ended then
      if s.job.jobInput = -2 then
        ({ s with job := { s.job with linesto := s.job.linesto + 1 },
                  sigLines := s.job.linesto + 1 } :: r.1,
         [Event.write j inputLine, Event.forwarded j inputLine] ++ r.2)
      else
        ({ s with job := { s.job with linesto := 0 }, sigLines := 0 } :: r.1,
         [Event.write j inputLine] ++ r.2)
    else (s :: r.1, r.2)

/-- Lines 474-492: one line is read from the output pipe of every live
pipe-output job, from index `j` on. -/
def drainLoop (verbose : Bool) (pipeLine : Nat → Option (List Char)) :
    Nat → List Slot → List Event
  | _, [] => []
  | j, s :: rest =>
    if s.job.runnable && !s.job.ended && decide (s.job.jobOutput = -2) then
      match pipeLine j with
      | none =>
        if verbose then Event.eofFrom j :: drainLoop verbose pipeLine (j + 1) rest
        else drainLoop verbose pipeLine (j + 1) rest
      | some l => Event.relayed j l :: drainLoop verbose pipeLine (j + 1) rest
    else drainLoop verbose pipeLine (j + 1) rest

/-- Lines 361-500: `read_line(stdin)` and what follows it in the loop body.
End of input leaves through `exit(0)`; a line starting with `*` goes to the
command console; any other line is broadcast and the output pipes are
drained. -/
def operatorInput (verbose : Bool) (t : TickInput) (s : Sup) : Except Halt Sup :=
  match t.inputLine with
  | none => .error { code := 0, trace := s.trace ++ [Event.readLine] }
  | some inputLine =>
    if inputLine.head? = some '*' then
      .ok { s with trace := s.trace ++ [Event.readLine]
                     ++ commandConsole s.jobList t.killRet inputLine }
    else
      .ok { s with jobList := (broadcastLoop inputLine 1 s.jobList).1
                   trace := s.trace ++ [Event.readLine] ++ (broadcastLoop inputLine 1 s.jobList).2
                     ++ drainLoop verbose t.pipeLine 1 (broadcastLoop inputLine 1 s.jobList).1 }

/-- Lines 294-500: one iteration of the body of `while (viableWorkers > 0)`:
reap loop, termination check (lines 346-360), operator input. -/
def tick (verbose : Bool) (t : TickInput) (s : Sup) : Except Halt Sup :=
  match reapLoop verbose t 1 s.jobList s.viableWorkers s.trace with
  | .error h => .error h
  | .ok (jobs, v, tr) =>
    if v < 1 ∧ jobs.all (fun x => x.job.ended) = true then
      .error { code := 0, trace := tr ++ [Event.noMoreViable] }
    else operatorInput verbose t { jobList := jobs, viableWorkers := v, trace := tr }

/-- Lines 293-508: the loop `while (viableWorkers > 0)` driven by the given
sequence of external inputs, and the exit after the loop.  `.error` is the
termination of the program; `.ok` is the state in which the loop waits for
inputs beyond the given ones. -/
def supervise (verbose : Bool) : List TickInput → Sup → Except Halt Sup
  | [], s =>
    if s.viableWorkers > 0 then .ok s
    else .error { code := 0, trace := s.trace ++ [Event.noMoreViable] }
  | t :: ts, s =>
    if s.viableWorkers > 0 then
      match tick verbose t s with
      | .error h => .error h
      | .ok s1 => supervise verbose ts s1
    else .error { code := 0, trace := s.trace ++ [Event.noMoreViable] }

/-- The program from the loaded job file on: start-up, then the supervisor
loop. -/
def run (env : LoadEnv) (garbage : Int) (forkOk : Nat → Bool) (lines : List (List Char))
    (inputs : List TickInput) : Except Halt Sup :=
  match startup env garbage forkOk lines with
  | .error h => .error h
  | .ok s => supervise env.verboseFlag inputs s

/-! ## Vocabulary of the statements and sample inputs -/

/-- Whether a list of events contains a call of `kill`. -/
def deliversSignal (evs : List Event) : Bool :=
  evs.any fun e =>
    match e with
    | Event.kill _ _ => true
    | _ => false

/-- The operator line `*signal <id> <sig>` with the two argument texts. -/
def signalLine (idTok sigTok : List Char) : List Char :=
  "*signal".toList ++ ' ' :: (idTok ++ ' ' :: sigTok)

/-- What the broadcast does to one slot. -/
def BroadcastEffect (a b : Slot) : Prop :=
  (a.job.ended = false →
      b.job.linesto = if a.job.jobInput = -2 then a.job.linesto + 1 else 0) ∧
  (a.job.ended = true → b = a) ∧
  b.job.runs = a.job.runs

/-- A loader environment for examples: not verbose, token counts from
`split_space_not_quote`, every `open` succeeds except on the path `missing`. -/
def sampleEnv : LoadEnv :=
  { verboseFlag := false
    tokenCount := fun cmd => (split_space_not_quote cmd).length
    openInput := fun _ path => if path = "missing".toList then none else some 3
    openOutput := fun _ path => if path = "missing".toList then none else some 4 }

/-- Wait result of a process that is still running. -/
def stillRunning : WaitResult :=
  { ret := 0, ifExited := false, exitStatus := 0, ifSignaled := false, termSig := 0 }

/-- Wait result of a process that exited with status 0. -/
def exitedZero : WaitResult :=
  { ret := 4242, ifExited := true, exitStatus := 0, ifSignaled := false, termSig := 0 }

/-- External inputs of a tick: the same wait result for every job, `fork` and
`kill` succeed, the given operator line, nothing to read from the pipes. -/
def sampleTick (w : WaitResult) (line : Option (List Char)) : TickInput :=
  { waits := fun _ => w, forkOk := fun _ => true, inputLine := line, killRet := 0,
    pipeLine := fun _ => none }

/-- A running pipe-mode job with unlimited restarts, as the table holds it
after the initial spawn pass. -/
def sampleSlot : Slot :=
  { job := { jobID := 1, jobInput := -2, jobOutput := -2, restartCount := 0, jobCmd := "cat".toList,
             infiniteRestart := true, runnable := true, ended := false, runs := 1, linesto := 0 },
    sigRuns := 1, sigLines := 0 }

/-- A supervisor state with the one job `sampleSlot`. -/
def sampleSup : Sup :=
  { jobList := [sampleSlot], viableWorkers := 1, trace := [Event.spawn 1] }

/-- The `int` that the console obtains from an argument text. -/
def argValue (tok : List Char) : Int :=
  toInt32 (strtol tok).value

/-- Field `k` (from 0) of a raw job-file line: the line is trimmed and split
at the colons. -/
def jobField (raw : List Char) (k : Nat) : List Char :=
  (split_line (trim_whitespace raw) ':').getD k []

/-- The tests of the loading loop that decide whether a line is registered
(lines 123, 128, 139-152, 158, 162), collected in program order. -/
def registers (env : LoadEnv) (raw : List Char) : Bool :=
  !(decide ((trim_whitespace raw).head? = some '#') || decide ((trim_whitespace raw).length = 0))
    && decide (count_colons (trim_whitespace raw) = 3)
    && !badNumRestarts (jobField raw 0)
    && decide ((jobField raw 3).head? ≠ some ' ')
    && decide (env.tokenCount (jobField raw 3) ≠ 0)

/-- Both redirects of the line can be set up when it is registered as job
`k`: a non-empty second field opens for reading and a non-empty third field
opens for writing. -/
def redirectsOpen (env : LoadEnv) (k : Nat) (raw : List Char) : Bool :=
  (decide (jobField raw 1 = []) || (env.openInput k (jobField raw 1)).isSome)
    && (decide (jobField raw 2 = []) || (env.openOutput k (jobField raw 2)).isSome)

/-- The id, the runnable flag and the command of a job record. -/
def jobView (j : JobProps) : Int × Bool × List Char :=
  (j.jobID, j.runnable, j.jobCmd)

/-- The job table as the specification describes it, for the lines after `n`
registered jobs: every accepted line takes the next id, in file order, and is
runnable exactly when both of its redirects open. -/
def specJobs (env : LoadEnv) : Nat → List (List Char) → List (Int × Bool × List Char)
  | _, [] => []
  | n, raw :: rest =>
    if registers env raw then
      (((n + 1 : Nat) : Int), redirectsOpen env (n + 1) raw, jobField raw 3)
        :: specJobs env (n + 1) rest
    else specJobs env n rest

/-- Number of jobs of a table that are not runnable. -/
def countNotRunnable (jobs : List JobProps) : Nat :=
  (jobs.filter fun j => !j.runnable).length

/-- Number of jobs of a table that are runnable. -/
def countRunnable (jobs : List JobProps) : Nat :=
  (jobs.filter fun j => j.runnable).length

/-- The text of an integer literal without its optional sign. -/
def literalDigits (f : List Char) : List Char :=
  if f.head? = some '-' ∨ f.head? = some '+' then f.tail else f

/-- A decimal integer literal with nothing after it: an optional sign and
then one or more digits, up to the end of the text. -/
def isIntLiteral (f : List Char) : Bool :=
  decide (literalDigits f ≠ []) && (literalDigits f).all isdigit

/-- The number a text of digits denotes. -/
def digitsValue (ds : List Char) : Nat :=
  ds.foldl (fun acc c => acc * 10 + (c.toNat - 48)) 0

/-- The integer that an integer literal denotes. -/
def literalValue (f : List Char) : Int :=
  if f.head? = some '-' then -(digitsValue (literalDigits f) : Int)
  else (digitsValue (literalDigits f) : Int)

/-- The acceptance condition of a job-file line as the claim on the loader
count words it: after trimming, the line is non-empty, does not start with
`#`, has exactly three colons, its first field is empty or a non-negative
integer literal with no trailing garbage, and its fourth field has at least
one token. -/
def claimedAccepts (env : LoadEnv) (raw : List Char) : Bool :=
  decide (trim_whitespace raw ≠ [])
    && decide ((trim_whitespace raw).head? ≠ some '#')
    && decide (count_colons (trim_whitespace raw) = 3)
    && (decide (jobField raw 0 = [])
        || (isIntLiteral (jobField raw 0) && decide (0 ≤ literalValue (jobField raw 0))))
    && decide (1 ≤ env.tokenCount (jobField raw 3))

/-- The tests of `registers` on the first field written out on the text of
the field: it is empty, or an integer literal whose value, saturated by
`strtol` and narrowed to the 32-bit `int numRestarts`, is not negative. -/
def storedAccepts (env : LoadEnv) (raw : List Char) : Bool :=
  decide (trim_whitespace raw ≠ [])
    && decide ((trim_whitespace raw).head? ≠ some '#')
    && decide (count_colons (trim_whitespace raw) = 3)
    && (decide (jobField raw 0 = [])
        || (isIntLiteral (jobField raw 0)
            && decide (0 ≤ toInt32 (clampLong (literalValue (jobField raw 0))))))
    && decide ((jobField raw 3).head? ≠ some ' ')
    && decide (1 ≤ env.tokenCount (jobField raw 3))

/-- The effect of the initial spawn pass on one slot. -/
def spawned (s : Slot) : Slot :=
  if s.job.runnable then
    { s with job := { s.job with runs := s.job.runs + 1 }, sigRuns := s.job.runs + 1 }
  else s

/-- A job file for examples: an accepted line, a comment, a line whose two
redirect files cannot be opened, a malformed line and a line with the
unlimited restart limit 0. -/
def sampleJobFile : List (List Char) :=
  ["2::out.txt:echo hi".toList, "# a comment".toList, "1:missing:missing:cat".toList,
   "no colons here".toList, "0:::cat".toList]

/-- The text does not begin with an `isspace` character. -/
def NoLeadingSpace (f : List Char) : Prop :=
  ∀ c, f.head? = some c → isspace c = false

/-- The restart bookkeeping of one job is consistent: `infiniteRestart` tells
whether `restartCount` is 0, and a job with a positive `restartCount` has run
at most `restartCount` times. -/
def WithinBudget (j : JobProps) : Prop :=
  j.infiniteRestart = decide (j.restartCount = 0) ∧ (0 < j.restartCount → j.runs ≤ j.restartCount)

/-- The states of the supervisor at the head of `while (viableWorkers > 0)`:
`Run verbose s0 ts s` says that from `s0` the loop body ran once for each
external input of `ts`, in order, without leaving the program, and that `s`
is the state at the loop head after that. -/
inductive Run (verbose : Bool) (s0 : Sup) : List TickInput → Sup → Prop
  | start : Run verbose s0 [] s0
  | step {ts : List TickInput} {s : Sup} (t : TickInput) (s1 : Sup) :
      Run verbose s0 ts s → 0 < s.viableWorkers → tick verbose t s = .ok s1 →
      Run verbose s0 (ts ++ [t]) s1

/-- The wait result says that the process has terminated: `waitpid` returned
non-zero and the status reads as exited or as killed by a signal. -/
def Terminated (w : WaitResult) : Prop :=
  w.ret ≠ 0 ∧ (w.ifExited = true ∨ w.ifSignaled = true)

/-- Number of calls of `spawn_child` for job `i` in a trace. -/
def spawnCount (i : Nat) (tr : List Event) : Nat :=
  (tr.filter fun e => decide (e = Event.spawn i)).length

/-- The loaded table of `sampleJobFile` after the initial spawn pass. -/
def sampleStart : Sup :=
  match startup sampleEnv 0 (fun _ => true) sampleJobFile with
  | .ok s => s
  | .error _ => { jobList := [], viableWorkers := 0, trace := [] }

/-- The state after one loop iteration from `sampleStart` in which every
process is found terminated and the operator sends `hello`. -/
def sampleNext : Sup :=
  match tick false (sampleTick exitedZero (some "hello".toList)) sampleStart with
  | .ok s => s
  | .error _ => { jobList := [], viableWorkers := 0, trace := [] }

/-- The state of job record `b` differs from `a` at most in `linesto`. -/
def SameButLines (a b : JobProps) : Prop :=
  b = { a with linesto := b.linesto }

/-- The bookkeeping of a finite-limit job that terminates after every spawn,
after `n` loop iterations: the limit is unchanged, the job still counts as
runnable, it has run `min (n + 1) N` times, and it is Ended exactly from
iteration `N` on. -/
def AfterTicks (N : Int) (n : Nat) (j : JobProps) : Prop :=
  j.restartCount = N ∧ j.infiniteRestart = false ∧ j.runnable = true ∧
    j.runs = min ((n : Int) + 1) N ∧ j.ended = decide (N ≤ (n : Int))

/-- The runs counter of every job is the number of `spawn_child` calls made
for it so far. -/
def SpawnsMatchRuns (s : Sup) : Prop :=
  ∀ (k : Nat) (a : Slot), s.jobList[k]? = some a → (spawnCount (k + 1) s.trace : Int) = a.job.runs

/-- The state in which a run of the model ended when the loop is still
waiting for input; the empty state when the program has left. -/
def stateOf (r : Except Halt Sup) : Sup :=
  match r with
  | .ok s => s
  | .error _ => { jobList := [], viableWorkers := 0, trace := [] }

/-- A job file whose first job names an input file that cannot be opened and
whose second job may run once. -/
def unopenedJobFile : List (List Char) :=
  ["1:missing::cat".toList, "1:::true".toList]

/-! ## The status interrupt -/

/-- One line `id:runs:linesto` of the status report on stderr. -/
structure StatusLine where
  id : Nat
  runs : Int
  linesto : Int
  deriving DecidableEq, Repr

/-- Line 88: the global table is `int signals[100][3]`; rows `0..99` exist. -/
def signalsRows : Nat := 100

/-- The signal number of `SIGHUP`. -/
def SIGHUP : Int := 1

/-- Lines 522-524: the loop `for (i = 1; i <= signals[0][0]; i++)` of the
handler from row `i` on, over the rows held with the jobs.  Each row gives the
line `i:signals[i][1]:signals[i][2]`.  Whether row `i` lies inside the table
of `signalsRows` rows is a matter of `InBounds`; the handler prints the cells
that `main` wrote for the row. -/
def statusLoop : Nat → List Slot → List StatusLine
  | _, [] => []
  | i, x :: rest => { id := i, runs := x.sigRuns, linesto := x.sigLines } :: statusLoop (i + 1) rest

/-- Lines 517-529: `sig_handler`.  For `SIGHUP` the report is printed for
rows `1..signals[0][0]`, where `signals[0][0]` was set to `jobCount` at line
266; `SIGPIPE` and `SIGINT` print nothing.  The flags `signals[0][1]` and
`signals[0][2]` that the handler sets are read nowhere and are left out. -/
def sig_handler (signo : Int) (s : Sup) : List StatusLine :=
  if signo = SIGHUP then statusLoop 1 s.jobList else []

/-- The report that the claim describes, from job number `i` on: one line per
job in table order with the job's own `runs` and `linesto`. -/
def expectedReport : Nat → List Slot → List StatusLine
  | _, [] => []
  | i, x :: rest =>
    { id := i, runs := x.job.runs, linesto := x.job.linesto } :: expectedReport (i + 1) rest

/-- The cells `signals[i][1]`, `signals[i][2]` of every row repeat the `runs`
and `linesto` of job `i`. -/
def Mirrored (jobs : List Slot) : Prop :=
  ∀ x ∈ jobs, x.sigRuns = x.job.runs ∧ x.sigLines = x.job.linesto

/-- A job file with `n` times the line `0:::cat`. -/
def catJobFile (n : Nat) : List (List Char) :=
  List.replicate n "0:::cat".toList

/-! ## Opening the job file -/

/-- Lines 647-655: `open_jobfile`.  When `fopen` fails the message
`Error: Unable to read job file` is printed and the program leaves through
`exit(2)`; the error value is that exit status. -/
def open_jobfile (fopenOk : Bool) : Except Int Unit :=
  if fopenOk then .ok () else .error 2

/-- A job file with one job that may run once. -/
def runOnceJobFile : List (List Char) :=
  ["1:::true".toList]

/-! ## Viable workers -/

/-- The job counts as a viable worker: `runnable` is set and `ended` is
clear. -/
def viableOne (x : Slot) : Bool :=
  x.job.runnable && !x.job.ended

/-- Number of jobs of the table with `runnable = true` and `ended = false`. -/
def countViable (jobs : List Slot) : Nat :=
  (jobs.filter viableOne).length

/-- The restart bookkeeping of a job is consistent and its restart limit is
not negative. -/
def GoodLimit (j : JobProps) : Prop :=
  WithinBudget j ∧ 0 ≤ j.restartCount

/-! ## Array sizes -/

/-- Lines 117-119 and 176-183: the value of `arraySize` and the number of
elements allocated for `jobList`, after `n` jobs have been registered.
Before the first job `arraySize` is 2 and one element is allocated
(`calloc(1, ...)`); when `jobCount == arraySize - 1` after `jobCount++`,
`arraySize` doubles and `jobList` is reallocated to `arraySize` elements.
`pids` is reallocated in the same step to `sizeof(pids) * arraySize` bytes,
which is room for at least `arraySize` elements. -/
def allocation : Nat → Nat × Nat
  | 0 => (2, 1)
  | n + 1 =>
    if n + 1 = (allocation n).1 - 1 then ((allocation n).1 * 2, (allocation n).1 * 2)
    else allocation n

/-- Line 268: `int jobStatuses[jobCount]` has `jobCount` elements. -/
def jobStatusesLength (jobCount : Nat) : Nat :=
  jobCount

/-- The values of `i` in the loops `for (i = 1; i <= jobCount; i++)` that
index `jobList`, `pids`, `jobStatuses` and `signals` (lines 269, 277, 294,
348, 453, 474, 522). -/
def loopIndices (jobCount : Nat) : List Nat :=
  (List.range jobCount).map fun k => k + 1

/-- Every index of the list is a valid index of an array with `size`
elements. -/
def InBounds (size : Nat) (indices : List Nat) : Prop :=
  ∀ i ∈ indices, i < size

/-! ## The loading loop with its stops -/

/-- Line 122: `trim_whitespace` returns a pointer past the leading `isspace`
characters of the buffer that `read_line` allocated; the pointer kept in
`jobLine` is no longer the allocated one exactly when the line begins with
such a character. -/
def pointerMoved (raw : List Char) : Bool :=
  match raw with
  | [] => false
  | c :: _ => isspace c

/-- Whether the iteration on this line calls `free(jobLine)`: every way
through the loop body does (lines 124, 133, 148, 167, 215, 237, 255) except the
registration of a job with both redirects set up, which falls through to the
loop head after line 249. -/
def freesLine (env : LoadEnv) (st : LoadState) (raw : List Char) : Bool :=
  !(registers env raw && redirectsOpen env (st.jobCount + 1) raw)

/-- Line 188 for a registered command of 502 or more characters: bytes of the
command itself, which are neither 0 nor 1, are stored on the flag `runnable`
(from 503 characters on also on `ended`, and further on behind the record). -/
def overlongCommand (env : LoadEnv) (raw : List Char) : Bool :=
  registers env raw && decide (502 ≤ (jobField raw 3).length)

/-- The iteration on this line leaves what the source defines: `free` is
called with a pointer into the middle of an allocated buffer (the C library
ends the program there), or the copy of an overlong command stores bytes that
are no truth value on the flags of the record. -/
def stepStops (env : LoadEnv) (st : LoadState) (raw : List Char) : Bool :=
  (pointerMoved raw && freesLine env st raw) || overlongCommand env raw

/-- One iteration of the loading loop with its stops: `none` when the
iteration stops the program, otherwise the variables after it. -/
def loadStep (env : LoadEnv) (st : LoadState) (raw : List Char) : Option LoadState :=
  if stepStops env st raw then none else some (loadLine env st raw)

/-- The loading loop with its stops, from the given variables on. -/
def loadFrom (env : LoadEnv) : LoadState → List (List Char) → Option LoadState
  | st, [] => some st
  | st, raw :: rest =>
    match loadStep env st raw with
    | none => none
    | some st1 => loadFrom env st1 rest

/-- The outcome of loading a job file (lines 115-264): the variables with
which `main` goes on to line 266, or `none` when an iteration stops the
program. -/
def loadFile (env : LoadEnv) (garbage : Int) (lines : List (List Char)) : Option LoadState :=
  loadFrom env (LoadState.initial garbage) lines

/-! ## Integers in arguments and fields -/

/-- The value lies in the range of the 32-bit `int`. -/
def FitsInt (v : Int) : Prop :=
  -2147483648 ≤ v ∧ v ≤ 2147483647

instance (v : Int) : Decidable (FitsInt v) :=
  inferInstanceAs (Decidable (-2147483648 ≤ v ∧ v ≤ 2147483647))

/-- The text is an integer literal (optional sign, then decimal digits, and
nothing else) that denotes `v`, and `v` fits the `int` of the program. -/
def IsIntArg (tok : List Char) (v : Int) : Prop :=
  isIntLiteral tok = true ∧ literalValue tok = v ∧ FitsInt v

instance (tok : List Char) (v : Int) : Decidable (IsIntArg tok v) :=
  inferInstanceAs (Decidable (isIntLiteral tok = true ∧ literalValue tok = v ∧ FitsInt v))

/-- The first field of the line, when it is an integer literal, denotes a
value in the range of `int`. -/
def FirstFieldFits (raw : List Char) : Prop :=
  isIntLiteral (jobField raw 0) = true → FitsInt (literalValue (jobField raw 0))

instance (raw : List Char) : Decidable (FirstFieldFits raw) :=
  inferInstanceAs
    (Decidable (isIntLiteral (jobField raw 0) = true → FitsInt (literalValue (jobField raw 0))))

/-- The acceptance condition of the claim on the loader count together with
the test of line 158: the fourth field does not begin with a space
character. -/
def guardedAccepts (env : LoadEnv) (raw : List Char) : Bool :=
  claimedAccepts env raw && decide ((jobField raw 3).head? ≠ some ' ')

/-! ## More sample inputs -/

/-- A job file with one line: restart limit 1, no redirects, and a command of
501 characters `a`. -/
def longCommandJobFile : List (List Char) :=
  ["1:::".toList ++ List.replicate 501 'a']

/-- A job file with one job of restart limit 2 and no redirects. -/
def twoLimitJobFile : List (List Char) :=
  ["2:::true".toList]

/-- The state after the job file with 100 lines `0:::cat` has been loaded and
the initial spawn pass has run. -/
def hundredStart : Sup :=
  stateOf (startup sampleEnv 0 (fun _ => true) (catJobFile 100))

/-- External inputs of a tick for a table of running `cat` jobs: every
process is still running, the operator sends the line `go`, and every job
echoes it on its output pipe. -/
def echoTick : TickInput :=
  { waits := fun _ => stillRunning, forkOk := fun _ => true, inputLine := some "go".toList,
    killRet := 0, pipeLine := fun _ => some "go".toList }

/-- The state after one loop iteration from `hundredStart` with the inputs
`echoTick`. -/
def hundredNext : Sup :=
  stateOf (tick false echoTick hundredStart)

/-! ## Theorems -/

/-! ### Text lemmas -/

theorem split_line_no_delim (d : Char) :
    ∀ (a : List Char), d ∉ a → split_line a d = [a] := by
  intro a
  induction a with
  | nil => intro _; rfl
  | cons c cs ih =>
    intro h
    have hc : c ≠ d := fun e => h (by simp [e])
    have hcs : d ∉ cs := fun e => h (by simp [e])
    simp [split_line, hc, ih hcs]

theorem split_line_append (d : Char) (rest : List Char) :
    ∀ (a : List Char), d ∉ a → split_line (a ++ d :: rest) d = a :: split_line rest d := by
  intro a
  induction a with
  | nil => intro _; simp [split_line]
  | cons c cs ih =>
    intro h
    have hc : c ≠ d := fun e => h (by simp [e])
    have hcs : d ∉ cs := fun e => h (by simp [e])
    simp [split_line, hc, ih hcs]

/-! ### Broadcast -/

theorem broadcastLoop_get (line : List Char) :
    ∀ (jobs : List Slot) (j k : Nat) (a : Slot), jobs[k]? = some a →
      ∃ b, (broadcastLoop line j jobs).1[k]? = some b ∧ BroadcastEffect a b := by
  intro jobs
  induction jobs with
  | nil => intro j k a h; simp at h
  | cons s rest ih =>
    intro j k a h
    cases k with
    | zero =>
      simp only [List.getElem?_cons_zero, Option.some.injEq] at h
      subst h
      cases he : s.job.ended <;> by_cases hi : s.job.jobInput = -2 <;>
        simp [broadcastLoop, he, hi, BroadcastEffect]
    | succ k =>
      simp only [List.getElem?_cons_succ] at h
      obtain ⟨b, hb, hP⟩ := ih (j + 1) k a h
      refine ⟨b, ?_, hP⟩
      cases he : s.job.ended <;> by_cases hi : s.job.jobInput = -2 <;>
        simp [broadcastLoop, he, hi, hb]

theorem broadcastLoop_length (line : List Char) :
    ∀ (jobs : List Slot) (j : Nat), (broadcastLoop line j jobs).1.length = jobs.length := by
  intro jobs
  induction jobs with
  | nil => intro j; simp [broadcastLoop]
  | cons s rest ih =>
    intro j
    cases he : s.job.ended <;> by_cases hi : s.job.jobInput = -2 <;>
      simp [broadcastLoop, he, hi, ih]

/-- C10: a broadcast line (an operator line not starting with `*`) leaves the
supervisor running, keeps the number of jobs, and for every job whose Ended
flag is clear sets lines-forwarded to its previous value plus one when the
input redirect is pipe-mode (`jobInput = -2`) and to 0 otherwise; the
lines-forwarded counter of an Ended job and the runs counter of every job are
unchanged. -/
theorem broadcast_lines_forwarded (verbose : Bool) (t : TickInput) (s : Sup)
    (line : List Char) (hline : t.inputLine = some line) (hstar : line.head? ≠ some '*') :
    ∃ s1, operatorInput verbose t s = .ok s1 ∧
      s1.jobList.length = s.jobList.length ∧
      ∀ (k : Nat) (a : Slot), s.jobList[k]? = some a →
        ∃ b, s1.jobList[k]? = some b ∧
          (a.job.ended = false →
            b.job.linesto = if a.job.jobInput = -2 then a.job.linesto + 1 else 0) ∧
          (a.job.ended = true → b.job.linesto = a.job.linesto) ∧
          b.job.runs = a.job.runs := by
  refine ⟨_, by simp only [operatorInput, hline, if_neg hstar]; rfl, ?_, ?_⟩
  · exact broadcastLoop_length line s.jobList 1
  · intro k a h
    obtain ⟨b, hb, h1, h2, h3⟩ := broadcastLoop_get line s.jobList 1 k a h
    exact ⟨b, hb, h1, fun he => by rw [h2 he], h3⟩

/-- Witness of C10: the line `hello` broadcast to the one live pipe-input job
of `sampleSup`. -/
theorem broadcast_lines_forwarded_witness :
    (sampleTick stillRunning (some "hello".toList)).inputLine = some "hello".toList ∧
    "hello".toList.head? ≠ some '*' ∧
    ∃ s1, operatorInput false (sampleTick stillRunning (some "hello".toList)) sampleSup = .ok s1 ∧
      s1.jobList.length = sampleSup.jobList.length ∧
      ∀ (k : Nat) (a : Slot), sampleSup.jobList[k]? = some a →
        ∃ b, s1.jobList[k]? = some b ∧
          (a.job.ended = false →
            b.job.linesto = if a.job.jobInput = -2 then a.job.linesto + 1 else 0) ∧
          (a.job.ended = true → b.job.linesto = a.job.linesto) ∧
          b.job.runs = a.job.runs :=
  ⟨rfl, by decide,
    broadcast_lines_forwarded false (sampleTick stillRunning (some "hello".toList)) sampleSup
      "hello".toList rfl (by decide)⟩

/-! ### The command console -/

theorem split_signalLine (idTok sigTok : List Char) (h1 : ' ' ∉ idTok) (h2 : ' ' ∉ sigTok) :
    split_line (signalLine idTok sigTok) ' ' = ["*signal".toList, idTok, sigTok] := by
  have h0 : ' ' ∉ "*signal".toList := by decide
  unfold signalLine
  rw [split_line_append ' ' _ _ h0, split_line_append ' ' _ _ h1, split_line_no_delim ' ' _ h2]

theorem commandConsole_signalLine (jobs : List Slot) (killRet : Int) (idTok sigTok : List Char)
    (h1 : ' ' ∉ idTok) (h2 : ' ' ∉ sigTok) :
    commandConsole jobs killRet (signalLine idTok sigTok)
      = signalCommand jobs killRet (parseArgs ["*signal".toList, idTok, sigTok]) := by
  simp [commandConsole, split_signalLine idTok sigTok h1 h2]

/-- C7, evaluation of the code: the line `*signal -111 9` has the two integer
arguments `-111` (outside every range of job numbers) and `9`; whatever the
job table, the console answers `Error: Incorrect number of arguments` and not
`Error: Invalid job`. -/
theorem signal_sentinel_job_id (jobs : List Slot) (killRet : Int) :
    commandConsole jobs killRet "*signal -111 9".toList = [Event.incorrectArgs] ∧
    commandConsole jobs killRet "*signal -111 9".toList ≠ [Event.invalidJob] ∧
    commandConsole jobs killRet "*signal 0 -111".toList = [Event.incorrectArgs] := by
  refine ⟨rfl, ?_, rfl⟩
  show [Event.incorrectArgs] ≠ [Event.invalidJob]
  decide

/-- C9, evaluation of the code: with the one live job of `sampleSup`, the line
`*signal 1 9 extra` has three arguments after the command, and the console
calls `kill(pids[1], 9)` without printing an error. -/
theorem signal_three_arguments :
    split_line "*signal 1 9 extra".toList ' '
      = ["*signal".toList, "1".toList, "9".toList, "extra".toList] ∧
    commandConsole sampleSup.jobList 0 "*signal 1 9 extra".toList = [Event.kill 1 9] ∧
    deliversSignal (commandConsole sampleSup.jobList 0 "*signal 1 9 extra".toList) = true := by
  decide
theorem parseArgs_two (idTok sigTok : List Char) (hne : sigTok ≠ []) :
    parseArgs ["*signal".toList, idTok, sigTok]
      = { num := argValue idTok, signum := argValue sigTok,
          invalidNum := !(strtol idTok).converted || decide ((strtol idTok).rest ≠ []),
          invalidSigNum := !(strtol sigTok).converted || decide ((strtol sigTok).rest ≠ []) } := by
  have hlen : sigTok.length ≠ 0 := by simpa using hne
  simp [parseArgs, argValue, hne]

theorem operatorInput_signalLine (verbose : Bool) (t : TickInput) (s : Sup)
    (idTok sigTok : List Char) (hline : t.inputLine = some (signalLine idTok sigTok))
    (h1 : ' ' ∉ idTok) (h2 : ' ' ∉ sigTok) :
    operatorInput verbose t s
      = .ok { s with trace := s.trace ++ [Event.readLine]
                ++ signalCommand s.jobList t.killRet (parseArgs ["*signal".toList, idTok, sigTok]) } := by
  have hhead : (signalLine idTok sigTok).head? = some '*' := rfl
  simp only [operatorInput, hline, hhead, if_true, commandConsole_signalLine _ _ _ _ h1 h2]

/-- A `*signal` line with two arguments and a job argument away from the value
`-111`: a number outside `1..jobCount`, or the number of an Ended job, is
answered with `Error: Invalid job` when the signal argument is not `-111`
either. -/
theorem signal_invalid_job (jobs : List Slot) (killRet : Int) (idTok sigTok : List Char)
    (h1 : ' ' ∉ idTok) (h2 : ' ' ∉ sigTok) (hne : sigTok ≠ [])
    (hid : argValue idTok ≠ -111) (hsig : argValue sigTok ≠ -111)
    (hbad : argValue idTok < 1 ∨ (jobs.length : Int) < argValue idTok
      ∨ endedAt jobs (argValue idTok) = true) :
    commandConsole jobs killRet (signalLine idTok sigTok) = [Event.invalidJob] := by
  rw [commandConsole_signalLine _ _ _ _ h1 h2, parseArgs_two _ _ hne]
  simp only [signalCommand, hid, hsig, or_self, if_false]
  rw [if_pos]
  rcases hbad with h | h | h
  · exact Or.inr (Or.inl h)
  · exact Or.inl h
  · exact Or.inr (Or.inr (Or.inl h))

/-! ### The loader -/

theorem registerJob_spec (env : LoadEnv) (k : Nat) (n : Int) (fin fout cmd : List Char) :
    (registerJob env k n fin fout cmd).1.jobID = (k : Int) ∧
    (registerJob env k n fin fout cmd).1.jobCmd = cmd ∧
    (registerJob env k n fin fout cmd).1.restartCount = n ∧
    (registerJob env k n fin fout cmd).1.infiniteRestart = decide (n = 0) ∧
    (registerJob env k n fin fout cmd).1.ended = false ∧
    (registerJob env k n fin fout cmd).1.runnable
      = (runnableAfterCopy cmd && ((decide (fin = []) || (env.openInput k fin).isSome)
          && (decide (fout = []) || (env.openOutput k fout).isSome))) ∧
    (registerJob env k n fin fout cmd).2
      = !((decide (fin = []) || (env.openInput k fin).isSome)
          && (decide (fout = []) || (env.openOutput k fout).isSome)) := by
  unfold registerJob
  by_cases h1 : fin = [] <;> by_cases h2 : fout = [] <;>
    cases h3 : env.openInput k fin <;> cases h4 : env.openOutput k fout <;>
    simp [h1, h2, h3, h4]

theorem loadLine_skip (env : LoadEnv) (st : LoadState) (raw : List Char)
    (h : registers env raw = false) :
    (loadLine env st raw).jobCount = st.jobCount ∧
    (loadLine env st raw).invalidJobs = st.invalidJobs ∧
    (loadLine env st raw).arraySize = st.arraySize ∧
    (loadLine env st raw).jobList = st.jobList := by
  simp only [registers, jobField] at h
  simp only [loadLine]
  split_ifs with a b c d e <;> simp_all

theorem loadLine_register (env : LoadEnv) (st : LoadState) (raw : List Char)
    (h : registers env raw = true) :
    loadLine env st raw =
      { jobCount := st.jobCount + 1
        invalidJobs :=
          if (registerJob env (st.jobCount + 1) (parseNumRestarts st.numRestarts (jobField raw 0))
              (jobField raw 1) (jobField raw 2) (jobField raw 3)).2
          then st.invalidJobs + 1 else st.invalidJobs
        arraySize := growArray (st.jobCount + 1) st.arraySize
        numRestarts := parseNumRestarts st.numRestarts (jobField raw 0)
        jobList := st.jobList ++
          [(registerJob env (st.jobCount + 1) (parseNumRestarts st.numRestarts (jobField raw 0))
              (jobField raw 1) (jobField raw 2) (jobField raw 3)).1] } := by
  simp only [registers, jobField] at h
  simp only [loadLine, jobField]
  split_ifs with a b c d e <;> simp_all
theorem count_split (jobs : List JobProps) :
    countRunnable jobs + countNotRunnable jobs = jobs.length := by
  induction jobs with
  | nil => rfl
  | cons j rest ih =>
    simp only [countRunnable, countNotRunnable] at ih ⊢
    cases h : j.runnable <;> simp [List.filter_cons, h] <;> omega

theorem countNotRunnable_append (a b : List JobProps) :
    countNotRunnable (a ++ b) = countNotRunnable a + countNotRunnable b := by
  simp [countNotRunnable]

theorem loadFold_count (env : LoadEnv) :
    ∀ (lines : List (List Char)) (st : LoadState),
      (lines.foldl (loadLine env) st).jobCount
          = st.jobCount + (lines.filter (registers env)).length ∧
      (lines.foldl (loadLine env) st).jobList.length
          = st.jobList.length + (lines.filter (registers env)).length := by
  intro lines
  induction lines with
  | nil => intro st; simp
  | cons raw rest ih =>
    intro st
    obtain ⟨i2, i3⟩ := ih (loadLine env st raw)
    simp only [List.foldl_cons]
    cases h : registers env raw
    · obtain ⟨s1, _, _, s4⟩ := loadLine_skip env st raw h
      rw [s1] at i2
      rw [s4] at i3
      refine ⟨?_, ?_⟩
      · rw [i2]; simp [List.filter_cons, h]
      · rw [i3]; simp [List.filter_cons, h]
    · have hreg := loadLine_register env st raw h
      have hc : (loadLine env st raw).jobCount = st.jobCount + 1 := by rw [hreg]
      have hl : (loadLine env st raw).jobList.length = st.jobList.length + 1 := by
        rw [hreg]; simp
      rw [hc] at i2
      rw [hl] at i3
      refine ⟨?_, ?_⟩
      · rw [i2]; simp [List.filter_cons, h]; omega
      · rw [i3]; simp [List.filter_cons, h]; omega

/-- The job table after loading a file in which no registered command has
more than 500 characters: it is the table `specJobs`, and `invalidJobs` counts
the jobs that are not runnable. -/
theorem loadFold_spec (env : LoadEnv) :
    ∀ (lines : List (List Char)) (st : LoadState),
      (∀ raw ∈ lines, registers env raw = true → (jobField raw 3).length ≤ 500) →
      (lines.foldl (loadLine env) st).jobList.map jobView
          = st.jobList.map jobView ++ specJobs env st.jobCount lines ∧
      (lines.foldl (loadLine env) st).invalidJobs + countNotRunnable st.jobList
          = st.invalidJobs + countNotRunnable (lines.foldl (loadLine env) st).jobList := by
  intro lines
  induction lines with
  | nil => intro st _; simp [specJobs]
  | cons raw rest ih =>
    intro st hshort
    obtain ⟨i1, i4⟩ := ih (loadLine env st raw)
      (fun r hr => hshort r (List.mem_cons_of_mem _ hr))
    simp only [List.foldl_cons]
    cases h : registers env raw
    · obtain ⟨s1, s2, _, s4⟩ := loadLine_skip env st raw h
      rw [s1, s4] at i1
      rw [s4] at i4
      rw [s2] at i4
      refine ⟨?_, i4⟩
      rw [i1]; simp [specJobs, h]
    · have hreg := loadLine_register env st raw h
      have hlen := hshort raw (List.mem_cons_self _ _) h
      have hcopy : runnableAfterCopy (jobField raw 3) = true := by
        simp [runnableAfterCopy, hlen]
      obtain ⟨r1, r2, _, _, _, r6, r7⟩ := registerJob_spec env (st.jobCount + 1)
        (parseNumRestarts st.numRestarts (jobField raw 0)) (jobField raw 1) (jobField raw 2)
        (jobField raw 3)
      rw [hcopy, Bool.true_and] at r6
      rw [← r6] at r7
      generalize registerJob env (st.jobCount + 1)
        (parseNumRestarts st.numRestarts (jobField raw 0)) (jobField raw 1) (jobField raw 2)
        (jobField raw 3) = reg at hreg r1 r2 r6 r7
      have hc : (loadLine env st raw).jobCount = st.jobCount + 1 := by rw [hreg]
      have hl : (loadLine env st raw).jobList = st.jobList ++ [reg.1] := by rw [hreg]
      have hi : (loadLine env st raw).invalidJobs
          = if reg.2 = true then st.invalidJobs + 1 else st.invalidJobs := by rw [hreg]
      rw [hc, hl] at i1
      rw [hl] at i4
      rw [hi] at i4
      refine ⟨?_, ?_⟩
      · rw [i1]
        simp [specJobs, h, jobView, r1, r2, r6, redirectsOpen]
      · rw [countNotRunnable_append, r7] at i4
        cases hr : reg.1.runnable
        · rw [hr] at i4
          simp [countNotRunnable, hr] at i4 ⊢
          omega
        · rw [hr] at i4
          simp [countNotRunnable, hr] at i4 ⊢
          omega

theorem specJobs_id (env : LoadEnv) :
    ∀ (lines : List (List Char)) (n k : Nat) (v : Int × Bool × List Char),
      (specJobs env n lines)[k]? = some v → v.1 = ((n + k + 1 : Nat) : Int) := by
  intro lines
  induction lines with
  | nil => intro n k v h; simp [specJobs] at h
  | cons raw rest ih =>
    intro n k v h
    cases hr : registers env raw
    · simp only [specJobs, hr] at h
      exact ih n k v h
    · simp only [specJobs, hr, if_true] at h
      cases k with
      | zero =>
        simp only [List.getElem?_cons_zero, Option.some.injEq] at h
        rw [← h]
      | succ k =>
        simp only [List.getElem?_cons_succ] at h
        rw [ih (n + 1) k v h]
        congr 1
        omega

theorem spawnLoop_spec (verbose : Bool) (forkOk : Nat → Bool) :
    ∀ (jobs : List Slot) (i : Nat) (tr : List Event) (jobs1 : List Slot) (tr1 : List Event),
      spawnLoop verbose forkOk i jobs tr = .ok (jobs1, tr1) → jobs1 = jobs.map spawned := by
  intro jobs
  induction jobs with
  | nil =>
    intro i tr jobs1 tr1 h
    simp only [spawnLoop, Except.ok.injEq, Prod.mk.injEq] at h
    simp [← h.1]
  | cons s rest ih =>
    intro i tr jobs1 tr1 h
    simp only [spawnLoop] at h
    split at h
    · rename_i hrun
      split at h
      · exact absurd h (by simp)
      · rename_i trA _
        split at h
        · exact absurd h (by simp)
        · rename_i restA trB hrest
          simp only [Except.ok.injEq, Prod.mk.injEq] at h
          rw [← h.1, ih _ _ _ _ hrest]
          simp [spawned, hrun]
    · rename_i hrun
      split at h
      · exact absurd h (by simp)
      · rename_i restA trB hrest
        simp only [Except.ok.injEq, Prod.mk.injEq] at h
        rw [← h.1, ih _ _ _ _ hrest]
        simp [spawned, hrun]
/-- The job table of a file in which no registered command has more than 500
characters, when every iteration of the loading loop runs to its end: the
registered jobs are, in file order, the accepted lines; the k-th of them
carries `jobID = k`; an accepted line whose input or output file cannot be
opened is registered all the same, is marked not-runnable, and is counted once
in `invalidJobs`; the initial `viableWorkers` is the number of runnable
jobs. -/
theorem job_table_of_short_commands (env : LoadEnv) (garbage : Int) (lines : List (List Char))
    (hshort : ∀ raw ∈ lines, registers env raw = true → (jobField raw 3).length ≤ 500) :
    (loadJobs env garbage lines).jobList.map jobView = specJobs env 0 lines ∧
    (loadJobs env garbage lines).jobList.length = (loadJobs env garbage lines).jobCount ∧
    (∀ (k : Nat) (j : JobProps), (loadJobs env garbage lines).jobList[k]? = some j →
      j.jobID = ((k + 1 : Nat) : Int)) ∧
    (loadJobs env garbage lines).invalidJobs
      = countNotRunnable (loadJobs env garbage lines).jobList ∧
    initialViable (loadJobs env garbage lines)
      = (countRunnable (loadJobs env garbage lines).jobList : Int) := by
  obtain ⟨h1, h4⟩ := loadFold_spec env lines (LoadState.initial garbage) hshort
  obtain ⟨h2, h3⟩ := loadFold_count env lines (LoadState.initial garbage)
  have e1 : (loadJobs env garbage lines).jobList.map jobView = specJobs env 0 lines := by
    simpa [loadJobs, LoadState.initial] using h1
  have e2 : (loadJobs env garbage lines).jobList.length = (loadJobs env garbage lines).jobCount := by
    simp only [loadJobs]
    rw [h2, h3]
    simp [LoadState.initial]
  have e4 : (loadJobs env garbage lines).invalidJobs
      = countNotRunnable (loadJobs env garbage lines).jobList := by
    simpa [loadJobs, LoadState.initial, countNotRunnable] using h4
  refine ⟨e1, e2, ?_, e4, ?_⟩
  · intro k j hk
    have hv : (specJobs env 0 lines)[k]? = some (jobView j) := by
      rw [← e1]; simp [hk]
    have := specJobs_id env lines 0 k (jobView j) hv
    simpa [jobView] using this
  · have hs := count_split (loadJobs env garbage lines).jobList
    unfold initialViable
    rw [e4, ← e2]
    omega

set_option maxRecDepth 100000 in
/-- C5, evaluation of the code: the job file with the single line `1:::`
followed by a command of 501 characters names no redirect file.  The line is
accepted and registered as job 1, and the copy of the command into
`jobCmd[500]` clears the `runnable` flag set three lines earlier.  The job is
not runnable and is not counted in `invalidJobs`, so the initial
`viableWorkers` is 1 while the number of runnable jobs is 0. -/
theorem overlong_command_not_counted :
    longCommandJobFile.map (fun raw => (registers sampleEnv raw, (jobField raw 3).length))
      = [(true, 501)] ∧
    longCommandJobFile.map (fun raw => (jobField raw 1, jobField raw 2)) = [([], [])] ∧
    (loadFile sampleEnv 0 longCommandJobFile).map
        (fun st => st.jobList.map fun j => (j.jobID, j.runnable))
      = some [(1, false)] ∧
    (loadFile sampleEnv 0 longCommandJobFile).map (fun st => (st.jobCount, st.invalidJobs))
      = some (1, 0) ∧
    (loadFile sampleEnv 0 longCommandJobFile).map
        (fun st => (initialViable st, countRunnable st.jobList))
      = some (1, 0) := by
  refine ⟨by decide, by decide, by decide, by decide, by decide⟩

/-- C6, evaluation of the code: in the job file with the lines `3:::a` and
`:::b` the second line has an empty first field, and the job registered for
it has `restartCount = 3` with `infiniteRestart = false`, whatever was in
`numRestarts` at the start; as the only line of a file, `:::b` gets whatever
value `numRestarts` held. -/
theorem empty_restart_field_keeps_previous_value (garbage : Int) :
    (loadJobs sampleEnv garbage ["3:::a".toList, ":::b".toList]).jobList.map
        (fun j => (j.jobID, j.restartCount, j.infiniteRestart))
      = [(1, 3, false), (2, 3, false)] ∧
    (loadJobs sampleEnv garbage [":::b".toList]).jobList.map
        (fun j => (j.jobID, j.restartCount, j.infiniteRestart))
      = [(1, garbage, decide (garbage = 0))] := by
  constructor <;> rfl

/-! ### `strtol` on integer literals -/

theorem scanDigits_spec :
    ∀ (l : List Char) (acc : Nat) (any : Bool),
      scanDigits l acc any
        = ((l.takeWhile isdigit).foldl (fun a c => a * 10 + (c.toNat - 48)) acc,
           any || decide (l.takeWhile isdigit ≠ []), l.dropWhile isdigit) := by
  intro l
  induction l with
  | nil => intro acc any; simp [scanDigits]
  | cons c cs ih =>
    intro acc any
    cases h : isdigit c
    · simp [scanDigits, h, List.takeWhile_cons, List.dropWhile_cons]
    · simp [scanDigits, h, List.takeWhile_cons, List.dropWhile_cons, ih]

theorem takeWhile_of_dropWhile_nil (p : Char → Bool) :
    ∀ (l : List Char), l.dropWhile p = [] → l.takeWhile p = l ∧ l.all p = true := by
  intro l
  induction l with
  | nil => intro _; simp
  | cons c cs ih =>
    intro h
    cases hp : p c
    · simp [List.dropWhile_cons, hp] at h
    · simp only [List.dropWhile_cons, hp, if_true] at h
      obtain ⟨i1, i2⟩ := ih h
      simp [List.takeWhile_cons, hp, i1, i2]

theorem dropWhile_of_all (p : Char → Bool) :
    ∀ (l : List Char), l.all p = true → l.takeWhile p = l ∧ l.dropWhile p = [] := by
  intro l
  induction l with
  | nil => intro _; simp
  | cons c cs ih =>
    intro h
    simp only [List.all_cons, Bool.and_eq_true] at h
    obtain ⟨i1, i2⟩ := ih h.2
    simp [List.takeWhile_cons, List.dropWhile_cons, h.1, i1, i2]

theorem dropWhile_isspace_of_noLeading (f : List Char) (h : NoLeadingSpace f) :
    f.dropWhile isspace = f := by
  cases f with
  | nil => rfl
  | cons c cs =>
    have := h c rfl
    simp [List.dropWhile_cons, this]

theorem strtol_noLeading (f : List Char) (h : NoLeadingSpace f) :
    strtol f =
      if (literalDigits f).takeWhile isdigit ≠ [] then
        { value := clampLong (if f.head? = some '-'
            then -(digitsValue ((literalDigits f).takeWhile isdigit) : Int)
            else (digitsValue ((literalDigits f).takeWhile isdigit) : Int)),
          rest := (literalDigits f).dropWhile isdigit, converted := true }
      else { value := 0, rest := f, converted := false } := by
  have hs2 : (if (f.head? == some '-' || f.head? == some '+') = true then f.tail else f)
      = literalDigits f := by
    unfold literalDigits
    by_cases a : f.head? = some '-' <;> by_cases b : f.head? = some '+' <;> simp [a, b]
  unfold strtol
  simp only [dropWhile_isspace_of_noLeading f h, hs2, scanDigits_spec, Bool.false_or]
  by_cases hd : (literalDigits f).takeWhile isdigit = []
  · simp [hd]
  · simp [hd, digitsValue]

theorem badNumRestarts_iff (f : List Char) (h : NoLeadingSpace f) :
    badNumRestarts f = false ↔
      f = [] ∨ (isIntLiteral f = true ∧ 0 ≤ toInt32 (clampLong (literalValue f))) := by
  by_cases hf : f = []
  · simp [hf, badNumRestarts]
  · have hb : badNumRestarts f = false ↔
        ((strtol f).converted = true ∧ (strtol f).rest = [] ∧ 0 ≤ toInt32 (strtol f).value) := by
      simp [badNumRestarts, hf, and_assoc]
    rw [hb, strtol_noLeading f h]
    simp only [hf, false_or, isIntLiteral, literalValue, Bool.and_eq_true, decide_eq_true_eq]
    by_cases hd : (literalDigits f).takeWhile isdigit = []
    · simp only [hd, ne_eq, not_true_eq_false, if_false, Bool.false_eq_true, false_and, false_iff]
      rintro ⟨⟨a, b⟩, _⟩
      rw [(dropWhile_of_all isdigit _ b).1] at hd
      exact a hd
    · simp only [hd, ne_eq, not_false_eq_true, if_true, true_and]
      constructor
      · rintro ⟨hr, hv⟩
        obtain ⟨t1, t2⟩ := takeWhile_of_dropWhile_nil isdigit _ hr
        rw [t1] at hv hd
        exact ⟨⟨hd, t2⟩, hv⟩
      · rintro ⟨⟨_, b⟩, hv⟩
        obtain ⟨t1, t2⟩ := dropWhile_of_all isdigit _ b
        rw [t1]
        exact ⟨t2, hv⟩
theorem noLeading_dropWhile (raw : List Char) : NoLeadingSpace (raw.dropWhile isspace) := by
  induction raw with
  | nil => intro c h; simp at h
  | cons a as ih =>
    cases ha : isspace a
    · intro c h
      simp only [List.dropWhile_cons, ha, Bool.false_eq_true, if_false, List.head?_cons,
        Option.some.injEq] at h
      rw [← h]; exact ha
    · simpa [List.dropWhile_cons, ha] using ih

theorem noLeading_of_prefix (l m : List Char) (hp : m <+: l) (h : NoLeadingSpace l) :
    NoLeadingSpace m := by
  obtain ⟨t, rfl⟩ := hp
  intro c hc
  cases m with
  | nil => simp at hc
  | cons a as => exact h c (by simpa using hc)

theorem noLeading_trim (raw : List Char) : NoLeadingSpace (trim_whitespace raw) :=
  noLeading_of_prefix _ _ (List.rdropWhile_prefix _ _) (noLeading_dropWhile raw)

theorem noLeading_first_field (l : List Char) (d : Char) (h : NoLeadingSpace l) :
    NoLeadingSpace ((split_line l d).getD 0 []) := by
  cases l with
  | nil => intro c hc; simp [split_line] at hc
  | cons a as =>
    by_cases had : a = d
    · intro c hc; simp [split_line, had] at hc
    · intro c hc
      apply h c
      cases hs : split_line as d <;> simp [split_line, had, hs] at hc <;> simpa using hc

theorem registers_eq_stored (env : LoadEnv) (raw : List Char) :
    registers env raw = storedAccepts env raw := by
  have hb := badNumRestarts_iff (jobField raw 0)
    (noLeading_first_field _ ':' (noLeading_trim raw))
  rw [Bool.eq_iff_iff]
  simp only [registers, storedAccepts, Bool.and_eq_true, Bool.not_eq_true', Bool.or_eq_false_iff,
    decide_eq_false_iff_not, decide_eq_true_eq, hb, Bool.or_eq_true, List.length_eq_zero]
  constructor
  · rintro ⟨⟨⟨⟨⟨a1, a2⟩, a3⟩, a4⟩, a5⟩, a6⟩
    exact ⟨⟨⟨⟨⟨a2, a1⟩, a3⟩, a4⟩, a5⟩, Nat.one_le_iff_ne_zero.mpr a6⟩
  · rintro ⟨⟨⟨⟨⟨a2, a1⟩, a3⟩, a4⟩, a5⟩, a6⟩
    exact ⟨⟨⟨⟨⟨a1, a2⟩, a3⟩, a4⟩, a5⟩, Nat.one_le_iff_ne_zero.mp a6⟩

/-! ### Integer literals in fields and arguments -/

theorem isspace_of_isdigit (c : Char) (h : isdigit c = true) : isspace c = false := by
  simp only [isdigit, Bool.and_eq_true, decide_eq_true_eq] at h
  simp only [isspace, Bool.or_eq_false_iff, beq_eq_false_iff_ne, ne_eq, Bool.and_eq_false_iff,
    decide_eq_false_iff_not, not_le]
  omega

theorem literal_chars (f : List Char) (h : isIntLiteral f = true) :
    ∀ c ∈ f, c = '-' ∨ c = '+' ∨ isdigit c = true := by
  cases f with
  | nil => intro c hc; simp at hc
  | cons a as =>
    simp only [isIntLiteral, literalDigits, List.head?_cons, Option.some.injEq, List.tail_cons,
      Bool.and_eq_true, decide_eq_true_eq] at h
    intro c hc
    by_cases hs : a = '-' ∨ a = '+'
    · rw [if_pos hs] at h
      rcases List.mem_cons.mp hc with rfl | hc
      · rcases hs with hs | hs
        · exact Or.inl hs
        · exact Or.inr (Or.inl hs)
      · exact Or.inr (Or.inr (List.all_eq_true.mp h.2 c hc))
    · rw [if_neg hs] at h
      exact Or.inr (Or.inr (List.all_eq_true.mp h.2 c hc))

theorem isIntLiteral_noLeading (f : List Char) (h : isIntLiteral f = true) :
    NoLeadingSpace f := by
  intro c hc
  have hmem : c ∈ f := by
    cases f with
    | nil => simp at hc
    | cons a as =>
      simp only [List.head?_cons, Option.some.injEq] at hc
      rw [hc]; exact List.mem_cons_self _ _
  rcases literal_chars f h c hmem with rfl | rfl | hd
  · decide
  · decide
  · exact isspace_of_isdigit c hd

theorem isIntLiteral_no_space (f : List Char) (h : isIntLiteral f = true) : ' ' ∉ f := by
  intro hmem
  rcases literal_chars f h ' ' hmem with hc | hc | hc
  · exact absurd hc (by decide)
  · exact absurd hc (by decide)
  · exact absurd hc (by decide)

theorem strtol_literal (f : List Char) (h : isIntLiteral f = true) :
    strtol f = { value := clampLong (literalValue f), rest := [], converted := true } := by
  rw [strtol_noLeading f (isIntLiteral_noLeading f h)]
  simp only [isIntLiteral, Bool.and_eq_true, decide_eq_true_eq] at h
  obtain ⟨t1, t2⟩ := dropWhile_of_all isdigit _ h.2
  rw [t1, t2, if_pos h.1]
  rfl

theorem toInt32_fits (v : Int) (h : FitsInt v) : toInt32 (clampLong v) = v := by
  obtain ⟨h1, h2⟩ := h
  have hc : clampLong v = v := by
    unfold clampLong
    rw [if_neg (by omega), if_neg (by omega)]
  rw [hc]
  unfold toInt32
  omega

theorem argValue_of_intArg (tok : List Char) (v : Int) (h : IsIntArg tok v) :
    argValue tok = v ∧ (strtol tok).converted = true ∧ (strtol tok).rest = [] := by
  obtain ⟨hl, hv, hf⟩ := h
  rw [argValue, strtol_literal tok hl]
  subst hv
  exact ⟨toInt32_fits _ hf, rfl, rfl⟩

/-! ### The loader count -/

theorem loadFrom_eq (env : LoadEnv) :
    ∀ (lines : List (List Char)) (st st1 : LoadState),
      loadFrom env st lines = some st1 → st1 = lines.foldl (loadLine env) st := by
  intro lines
  induction lines with
  | nil =>
    intro st st1 h
    simp only [loadFrom, Option.some.injEq] at h
    simp [← h]
  | cons raw rest ih =>
    intro st st1 h
    simp only [loadFrom, loadStep] at h
    split_ifs at h with hs
    simp only [List.foldl_cons]
    exact ih _ _ h

theorem loadFile_eq (env : LoadEnv) (garbage : Int) (lines : List (List Char)) (st : LoadState)
    (h : loadFile env garbage lines = some st) : st = loadJobs env garbage lines :=
  loadFrom_eq env lines _ _ h

theorem stored_eq_guarded (env : LoadEnv) (raw : List Char) (h : FirstFieldFits raw) :
    storedAccepts env raw = guardedAccepts env raw := by
  rw [Bool.eq_iff_iff]
  by_cases hl : isIntLiteral (jobField raw 0) = true
  · have hv := toInt32_fits _ (h hl)
    simp only [storedAccepts, guardedAccepts, claimedAccepts, hv, hl]
    simp only [Bool.and_eq_true, Bool.or_eq_true, decide_eq_true_eq]
    tauto
  · simp only [storedAccepts, guardedAccepts, claimedAccepts, hl]
    simp only [Bool.and_eq_true, Bool.or_eq_true, decide_eq_true_eq]
    tauto

theorem registers_eq_guarded (env : LoadEnv) (raw : List Char) (h : FirstFieldFits raw) :
    registers env raw = guardedAccepts env raw := by
  rw [registers_eq_stored, stored_eq_guarded env raw h]

/-- C8 (amended): for a `*signal <id> <sig>` line with two arguments whose
signal argument is an integer outside `[1, 31]` (a literal whose value fits an
`int`), the loop continues with the job table unchanged and `kill` is called
on no process; when the job argument is an integer in `1..jobCount` naming a
job whose Ended flag is clear, and the signal is not `-111`, the console
prints `Error: Invalid signal`. -/
theorem signal_bad_signal_number (verbose : Bool) (t : TickInput) (s : Sup)
    (idTok sigTok : List Char) (sig : Int)
    (hline : t.inputLine = some (signalLine idTok sigTok))
    (h1 : ' ' ∉ idTok) (hsig : IsIntArg sigTok sig) (hout : sig < 1 ∨ 31 < sig) :
    ∃ evs, operatorInput verbose t s
        = .ok { s with trace := s.trace ++ [Event.readLine] ++ evs } ∧
      deliversSignal evs = false ∧
      ∀ id : Int, IsIntArg idTok id → 1 ≤ id → id ≤ (s.jobList.length : Int) →
        endedAt s.jobList id = false → sig ≠ -111 → evs = [Event.invalidSignal] := by
  have h2 : ' ' ∉ sigTok := isIntLiteral_no_space sigTok hsig.1
  have hne : sigTok ≠ [] := by
    intro he
    have := hsig.1
    rw [he] at this
    exact absurd this (by decide)
  obtain ⟨sv, -, -⟩ := argValue_of_intArg sigTok sig hsig
  refine ⟨_, operatorInput_signalLine verbose t s idTok sigTok hline h1 h2, ?_, ?_⟩
  · rw [parseArgs_two _ _ hne, sv]
    have hs : sig < 1 ∨ sig > 31 ∨
        (!(strtol sigTok).converted || decide ((strtol sigTok).rest ≠ [])) = true := by
      rcases hout with h | h
      · exact Or.inl h
      · exact Or.inr (Or.inl h)
    simp only [signalCommand]
    split_ifs <;> rfl
  · intro id hid hlo hhi hend hsent
    obtain ⟨iv, ic, ir⟩ := argValue_of_intArg idTok id hid
    rw [parseArgs_two _ _ hne, sv, iv, ic, ir]
    have hs : sig < 1 ∨ sig > 31 ∨ (!true || decide (([] : List Char) ≠ [])) = true := by
      rcases hout with h | h
      · exact Or.inl h
      · exact Or.inr (Or.inl h)
    have hidne : id ≠ -111 := by omega
    have hok : ¬ (id > (s.jobList.length : Int) ∨ id < 1 ∨ endedAt s.jobList id = true ∨
        (!true || decide (([] : List Char) ≠ [])) = true) := by
      simp [hend]
      omega
    obtain ⟨-, sc, sr⟩ := argValue_of_intArg sigTok sig hsig
    simp only [signalCommand, hidne, hsent, or_self, if_false, if_neg hok, sc, sr, if_pos hs]

/-- Counterexample to C8: on the table of `sampleSup` (one job), the line
`*signal 5 99` has two arguments and the signal number 99 is an integer
outside `[1, 31]`, yet the console prints `Error: Invalid job` and does not
print `Error: Invalid signal`. -/
theorem signal_bad_signal_number_counterexample :
    IsIntArg "99".toList 99 ∧ IsIntArg "5".toList 5 ∧
    commandConsole sampleSup.jobList 0 (signalLine "5".toList "99".toList) = [Event.invalidJob] ∧
    Event.invalidSignal ∉ commandConsole sampleSup.jobList 0 (signalLine "5".toList "99".toList) := by
  decide

/-- Witness of C8 (amended): the line `*signal 1 99` on `sampleSup`, whose job
1 is not Ended, is answered with `Error: Invalid signal`. -/
theorem signal_bad_signal_number_witness :
    (' ' ∉ "1".toList ∧ IsIntArg "99".toList 99 ∧ IsIntArg "1".toList 1 ∧
      endedAt sampleSup.jobList 1 = false) ∧
    operatorInput false (sampleTick stillRunning (some (signalLine "1".toList "99".toList)))
        sampleSup
      = .ok { sampleSup with
                trace := sampleSup.trace ++ [Event.readLine] ++ [Event.invalidSignal] } ∧
    ∃ evs, operatorInput false
        (sampleTick stillRunning (some (signalLine "1".toList "99".toList))) sampleSup
        = .ok { sampleSup with trace := sampleSup.trace ++ [Event.readLine] ++ evs } ∧
      deliversSignal evs = false ∧
      ∀ id : Int, IsIntArg "1".toList id → 1 ≤ id → id ≤ (sampleSup.jobList.length : Int) →
        endedAt sampleSup.jobList id = false → (99 : Int) ≠ -111 → evs = [Event.invalidSignal] :=
  ⟨by decide, rfl,
    signal_bad_signal_number false
      (sampleTick stillRunning (some (signalLine "1".toList "99".toList))) sampleSup
      "1".toList "99".toList 99 rfl (by decide) (by decide) (by decide)⟩

/-- The restart fields of a registered job: with a non-empty first field
`restartCount` is its `int` value; with an empty first field it is the value
that `numRestarts` had before the line; `infiniteRestart` tells whether
`restartCount` is 0. -/
theorem loadLine_restart_fields (env : LoadEnv) (st : LoadState) (raw : List Char)
    (h : registers env raw = true) :
    ∃ j, (loadLine env st raw).jobList = st.jobList ++ [j] ∧
      j.restartCount = (if jobField raw 0 = [] then st.numRestarts else argValue (jobField raw 0)) ∧
      j.infiniteRestart = decide (j.restartCount = 0) := by
  obtain ⟨_, _, r3, r4, _, _, _⟩ := registerJob_spec env (st.jobCount + 1)
    (parseNumRestarts st.numRestarts (jobField raw 0)) (jobField raw 1) (jobField raw 2)
    (jobField raw 3)
  refine ⟨_, by rw [loadLine_register env st raw h], ?_, ?_⟩
  · rw [r3]
    by_cases hf : jobField raw 0 = [] <;> simp [parseNumRestarts, hf, argValue]
  · rw [r4, r3]

/-! ### The reap loop -/

theorem reapJob_budget (verbose : Bool) (w : WaitResult) (fk : Bool) (i : Nat) (s s1 : Slot)
    (v v1 : Int) (tr tr1 : List Event)
    (h : reapJob verbose w fk i s v tr = .ok (s1, v1, tr1)) (hb : WithinBudget s.job) :
    WithinBudget s1.job := by
  obtain ⟨hb1, hb2⟩ := hb
  simp only [reapJob, spawn_child] at h
  split_ifs at h <;>
    simp only [Except.ok.injEq, Prod.mk.injEq, reduceCtorEq] at h <;>
    (try obtain ⟨rfl, -, -⟩ := h) <;>
    (try exact ⟨hb1, hb2⟩) <;>
    (refine ⟨hb1, fun hp => ?_⟩) <;>
    simp_all <;> omega

theorem reapLoop_budget (verbose : Bool) (t : TickInput) :
    ∀ (jobs : List Slot) (i : Nat) (v : Int) (tr : List Event) (jobs1 : List Slot) (v1 : Int)
      (tr1 : List Event), reapLoop verbose t i jobs v tr = .ok (jobs1, v1, tr1) →
      (∀ s ∈ jobs, WithinBudget s.job) → ∀ s ∈ jobs1, WithinBudget s.job := by
  intro jobs
  induction jobs with
  | nil =>
    intro i v tr jobs1 v1 tr1 h _ s hs
    simp only [reapLoop, Except.ok.injEq, Prod.mk.injEq] at h
    rw [← h.1] at hs
    simp at hs
  | cons a rest ih =>
    intro i v tr jobs1 v1 tr1 h hall s hs
    simp only [reapLoop] at h
    split at h
    · exact absurd h (by simp)
    · rename_i a1 va tra ha
      split at h
      · exact absurd h (by simp)
      · rename_i rest1 vb trb hrest
        simp only [Except.ok.injEq, Prod.mk.injEq] at h
        rw [← h.1] at hs
        rcases List.mem_cons.mp hs with e | e
        · rw [e]
          exact reapJob_budget _ _ _ _ _ _ _ _ _ _ ha (hall a (List.mem_cons_self _ _))
        · exact ih _ _ _ _ _ _ hrest (fun x hx => hall x (List.mem_cons_of_mem _ hx)) s e

theorem broadcastLoop_budget (line : List Char) :
    ∀ (jobs : List Slot) (j : Nat), (∀ s ∈ jobs, WithinBudget s.job) →
      ∀ s ∈ (broadcastLoop line j jobs).1, WithinBudget s.job := by
  intro jobs
  induction jobs with
  | nil => intro j _ s hs; simp [broadcastLoop] at hs
  | cons a rest ih =>
    intro j hall s hs
    have ha := hall a (List.mem_cons_self _ _)
    have hr := ih (j + 1) (fun x hx => hall x (List.mem_cons_of_mem _ hx))
    simp only [broadcastLoop] at hs
    split_ifs at hs <;> simp only [List.mem_cons] at hs <;> rcases hs with e | e <;>
      first
        | exact hr s e
        | (rw [e]; exact ha)

theorem operatorInput_budget (verbose : Bool) (t : TickInput) (s s1 : Sup)
    (h : operatorInput verbose t s = .ok s1) (hall : ∀ x ∈ s.jobList, WithinBudget x.job) :
    ∀ x ∈ s1.jobList, WithinBudget x.job := by
  simp only [operatorInput] at h
  split at h
  · exact absurd h (by simp)
  · split_ifs at h
    · simp only [Except.ok.injEq] at h
      rw [← h]; exact hall
    · simp only [Except.ok.injEq] at h
      rw [← h]
      exact broadcastLoop_budget _ _ _ hall

theorem tick_budget (verbose : Bool) (t : TickInput) (s s1 : Sup)
    (h : tick verbose t s = .ok s1) (hall : ∀ x ∈ s.jobList, WithinBudget x.job) :
    ∀ x ∈ s1.jobList, WithinBudget x.job := by
  simp only [tick] at h
  split at h
  · exact absurd h (by simp)
  · rename_i jobs v tr hreap
    split_ifs at h
    exact operatorInput_budget verbose t _ s1 h
      (reapLoop_budget verbose t _ _ _ _ _ _ _ hreap hall)

theorem run_budget (verbose : Bool) (s0 : Sup) (ts : List TickInput) (s : Sup)
    (hrun : Run verbose s0 ts s) (hall : ∀ x ∈ s0.jobList, WithinBudget x.job) :
    ∀ x ∈ s.jobList, WithinBudget x.job := by
  induction hrun with
  | start => exact hall
  | step t s1 _ _ htick ih => exact tick_budget verbose t _ s1 htick ih

theorem loadFold_forall (env : LoadEnv) (P : JobProps → Prop)
    (hreg : ∀ k n a b c, P (registerJob env k n a b c).1) :
    ∀ (lines : List (List Char)) (st : LoadState), (∀ j ∈ st.jobList, P j) →
      ∀ j ∈ (lines.foldl (loadLine env) st).jobList, P j := by
  intro lines
  induction lines with
  | nil => intro st h; simpa using h
  | cons raw rest ih =>
    intro st h
    simp only [List.foldl_cons]
    apply ih
    cases hr : registers env raw
    · rw [(loadLine_skip env st raw hr).2.2.2]; exact h
    · rw [loadLine_register env st raw hr]
      intro j hj
      simp only [List.mem_append, List.mem_singleton] at hj
      rcases hj with e | e
      · exact h j e
      · rw [e]; exact hreg _ _ _ _ _

theorem startup_budget (env : LoadEnv) (garbage : Int) (forkOk : Nat → Bool)
    (lines : List (List Char)) (s0 : Sup) (h : startup env garbage forkOk lines = .ok s0) :
    ∀ x ∈ s0.jobList, WithinBudget x.job := by
  have hload : ∀ j ∈ (loadJobs env garbage lines).jobList,
      j.infiniteRestart = decide (j.restartCount = 0) := by
    apply loadFold_forall env (fun j => j.infiniteRestart = decide (j.restartCount = 0))
    · intro k n a b c
      obtain ⟨_, _, r3, r4, _⟩ := registerJob_spec env k n a b c
      rw [r4, r3]
    · intro j hj; simp [LoadState.initial] at hj
  simp only [startup, startFrom] at h
  split at h
  · exact absurd h (by simp)
  · rename_i jobs tr hsp
    simp only [Except.ok.injEq] at h
    rw [← h]
    simp only
    rw [spawnLoop_spec _ _ _ _ _ _ _ hsp]
    intro x hx
    simp only [initCounters, List.map_map, List.mem_map, Function.comp] at hx
    obtain ⟨j, hj, rfl⟩ := hx
    have := hload j hj
    unfold spawned
    split_ifs <;> refine ⟨by simpa using this, fun hp => ?_⟩ <;> simp at hp ⊢ <;> omega

/-! ### One job through the loop -/

theorem reapLoop_get (verbose : Bool) (t : TickInput) :
    ∀ (jobs : List Slot) (i : Nat) (v : Int) (tr : List Event) (jobs1 : List Slot) (v1 : Int)
      (tr1 : List Event), reapLoop verbose t i jobs v tr = .ok (jobs1, v1, tr1) →
      ∀ (k : Nat) (a : Slot), jobs[k]? = some a →
        ∃ b va tra vb trb, jobs1[k]? = some b ∧
          reapJob verbose (t.waits (i + k)) (t.forkOk (i + k)) (i + k) a va tra
            = .ok (b, vb, trb) := by
  intro jobs
  induction jobs with
  | nil => intro i v tr jobs1 v1 tr1 _ k a hk; simp at hk
  | cons x rest ih =>
    intro i v tr jobs1 v1 tr1 h k a hk
    simp only [reapLoop] at h
    split at h
    · exact absurd h (by simp)
    · rename_i x1 va tra hx
      split at h
      · exact absurd h (by simp)
      · rename_i rest1 vb trb hrest
        simp only [Except.ok.injEq, Prod.mk.injEq] at h
        rw [← h.1]
        cases k with
        | zero =>
          simp only [List.getElem?_cons_zero, Option.some.injEq] at hk
          subst hk
          exact ⟨x1, v, tr, va, tra, by simp, by simpa using hx⟩
        | succ k =>
          simp only [List.getElem?_cons_succ] at hk
          obtain ⟨b, pa, pb, pc, pd, hb, hj⟩ := ih _ _ _ _ _ _ hrest k a hk
          refine ⟨b, pa, pb, pc, pd, by simpa using hb, ?_⟩
          have e : i + (k + 1) = i + 1 + k := by omega
          rw [e]; exact hj

theorem broadcastLoop_sameButLines (line : List Char) :
    ∀ (jobs : List Slot) (j k : Nat) (a : Slot), jobs[k]? = some a →
      ∃ b, (broadcastLoop line j jobs).1[k]? = some b ∧ SameButLines a.job b.job := by
  intro jobs
  induction jobs with
  | nil => intro j k a h; simp at h
  | cons s rest ih =>
    intro j k a h
    cases k with
    | zero =>
      simp only [List.getElem?_cons_zero, Option.some.injEq] at h
      subst h
      obtain ⟨⟨_, jin, _, _, _, _, _, e, _, _⟩, _, _⟩ := s
      cases e <;> by_cases hi : jin = -2 <;> simp [broadcastLoop, hi, SameButLines]
    | succ k =>
      simp only [List.getElem?_cons_succ] at h
      obtain ⟨b, hb, hP⟩ := ih (j + 1) k a h
      refine ⟨b, ?_, hP⟩
      cases he : s.job.ended <;> by_cases hi : s.job.jobInput = -2 <;>
        simp [broadcastLoop, he, hi, hb]

theorem operatorInput_get (verbose : Bool) (t : TickInput) (s s1 : Sup)
    (h : operatorInput verbose t s = .ok s1) (k : Nat) (a : Slot) (hk : s.jobList[k]? = some a) :
    ∃ b, s1.jobList[k]? = some b ∧ SameButLines a.job b.job := by
  simp only [operatorInput] at h
  split at h
  · exact absurd h (by simp)
  · split_ifs at h
    · simp only [Except.ok.injEq] at h
      rw [← h]
      exact ⟨a, hk, by simp [SameButLines]⟩
    · simp only [Except.ok.injEq] at h
      rw [← h]
      exact broadcastLoop_sameButLines _ _ _ _ _ hk

theorem tick_get (verbose : Bool) (t : TickInput) (s s1 : Sup)
    (h : tick verbose t s = .ok s1) (k : Nat) (a : Slot) (hk : s.jobList[k]? = some a) :
    ∃ b c va tra vb trb, s1.jobList[k]? = some c ∧ SameButLines b.job c.job ∧
      reapJob verbose (t.waits (k + 1)) (t.forkOk (k + 1)) (k + 1) a va tra = .ok (b, vb, trb) := by
  simp only [tick] at h
  split at h
  · exact absurd h (by simp)
  · rename_i jobs v tr hreap
    split_ifs at h
    obtain ⟨b, va, tra, vb, trb, hb, hj⟩ := reapLoop_get verbose t _ _ _ _ _ _ _ hreap k a hk
    obtain ⟨c, hc, hsame⟩ := operatorInput_get verbose t _ s1 h k b hb
    rw [Nat.add_comm 1 k] at hj
    exact ⟨b, c, va, tra, vb, trb, hc, hsame, hj⟩

theorem reapJob_afterTicks (verbose : Bool) (w : WaitResult) (fk : Bool) (i : Nat) (s s1 : Slot)
    (v v1 : Int) (tr tr1 : List Event) (N : Int) (n : Nat)
    (h : reapJob verbose w fk i s v tr = .ok (s1, v1, tr1)) (hw : Terminated w)
    (hq : AfterTicks N n s.job) : AfterTicks N (n + 1) s1.job := by
  obtain ⟨q1, q2, q3, q4, q5⟩ := hq
  obtain ⟨w1, w2⟩ := hw
  unfold AfterTicks
  by_cases hn : N ≤ (n : Int)
  · have he : s.job.ended = true := by rw [q5]; simpa using hn
    simp only [reapJob, q3, he, Bool.not_true, Bool.and_false, Bool.false_eq_true, if_false,
      Except.ok.injEq, Prod.mk.injEq] at h
    rw [← h.1]
    refine ⟨q1, q2, q3, ?_, ?_⟩
    · rw [q4]; omega
    · rw [he]; symm; simp; omega
  · have he : s.job.ended = false := by rw [q5]; simpa using hn
    have hruns : s.job.runs = (n : Int) + 1 := by rw [q4]; omega
    by_cases hlt : (n : Int) + 1 < N
    · have hc : s.job.runs < s.job.restartCount := by rw [hruns, q1]; exact hlt
      simp only [reapJob, spawn_child, q3, he, w1, hc] at h
      rcases w2 with w2 | w2 <;> cases hx : w.ifExited <;> cases hfk : fk <;>
        simp [w2, hx, hfk] at h <;> obtain ⟨rfl, -, -⟩ := h <;>
        (refine ⟨?_, ?_, ?_, ?_, ?_⟩ <;> simp_all <;> omega)
    · have hc : ¬ s.job.runs < s.job.restartCount := by rw [hruns, q1]; exact hlt
      have hc2 : ¬ s.job.runs > s.job.restartCount := by rw [hruns, q1]; omega
      simp only [reapJob, spawn_child, q3, he, q2, w1, hc, hc2] at h
      rcases w2 with w2 | w2 <;> cases hx : w.ifExited <;>
        simp [w2, hx] at h <;> obtain ⟨rfl, -, -⟩ := h <;>
        (refine ⟨?_, ?_, ?_, ?_, ?_⟩ <;> simp_all <;> omega)

theorem afterTicks_sameButLines (N : Int) (n : Nat) (a b : JobProps) (h : SameButLines a b)
    (hq : AfterTicks N n a) : AfterTicks N n b := by
  unfold SameButLines at h
  rw [h]
  exact hq

theorem run_afterTicks (verbose : Bool) (s0 : Sup) (ts : List TickInput) (s : Sup) (k : Nat)
    (N : Int) (hrun : Run verbose s0 ts s) (hterm : ∀ t ∈ ts, Terminated (t.waits (k + 1)))
    (h0 : ∃ a, s0.jobList[k]? = some a ∧ AfterTicks N 0 a.job) :
    ∃ a, s.jobList[k]? = some a ∧ AfterTicks N ts.length a.job := by
  induction hrun with
  | start => exact h0
  | step t s1 _ _ htick ih =>
    obtain ⟨a, ha, hq⟩ := ih (fun x hx => hterm x (List.mem_append_left _ hx))
    obtain ⟨b, c, va, tra, vb, trb, hc, hsame, hj⟩ := tick_get verbose t _ s1 htick k a ha
    have hw := hterm t (by simp)
    refine ⟨c, hc, ?_⟩
    rw [List.length_append, List.length_singleton]
    exact afterTicks_sameButLines _ _ _ _ hsame (reapJob_afterTicks _ _ _ _ _ _ _ _ _ _ _ _ hj hw hq)

theorem startup_get (env : LoadEnv) (garbage : Int) (forkOk : Nat → Bool)
    (lines : List (List Char)) (s0 : Sup) (h : startup env garbage forkOk lines = .ok s0)
    (k : Nat) (a : Slot) (hk : s0.jobList[k]? = some a) :
    a.job.infiniteRestart = decide (a.job.restartCount = 0) ∧ a.job.ended = false ∧
      a.job.linesto = 0 ∧ a.job.runs = (if a.job.runnable then 1 else 0) := by
  have hload : ∀ j ∈ (loadJobs env garbage lines).jobList,
      j.infiniteRestart = decide (j.restartCount = 0) ∧ j.ended = false := by
    apply loadFold_forall env
      (fun j => j.infiniteRestart = decide (j.restartCount = 0) ∧ j.ended = false)
    · intro k n a b c
      obtain ⟨_, _, r3, r4, r5, _⟩ := registerJob_spec env k n a b c
      exact ⟨by rw [r4, r3], r5⟩
    · intro j hj; simp [LoadState.initial] at hj
  simp only [startup, startFrom] at h
  split at h
  · exact absurd h (by simp)
  · rename_i jobs tr hsp
    simp only [Except.ok.injEq] at h
    rw [← h] at hk
    simp only at hk
    rw [spawnLoop_spec _ _ _ _ _ _ _ hsp] at hk
    simp only [initCounters, List.map_map, List.getElem?_map, Option.map_eq_some',
      Function.comp] at hk
    obtain ⟨j, hj, rfl⟩ := hk
    obtain ⟨l1, l2⟩ := hload j (List.getElem?_mem hj)
    unfold spawned
    cases hr : j.runnable <;> simp [hr, l1, l2]


/-! ### Calls of `spawn_child` and the runs counter -/

theorem spawnCount_append (m : Nat) (a b : List Event) :
    spawnCount m (a ++ b) = spawnCount m a + spawnCount m b := by
  simp [spawnCount]

theorem reapJob_spawnCount (verbose : Bool) (w : WaitResult) (fk : Bool) (i : Nat) (s s1 : Slot)
    (v v1 : Int) (tr tr1 : List Event)
    (h : reapJob verbose w fk i s v tr = .ok (s1, v1, tr1)) (m : Nat) :
    (spawnCount m tr1 : Int)
      = spawnCount m tr + (if m = i then s1.job.runs - s.job.runs else 0) := by
  simp only [reapJob, spawn_child] at h
  split_ifs at h <;>
    simp only [Except.ok.injEq, Prod.mk.injEq, reduceCtorEq] at h <;>
    obtain ⟨rfl, -, rfl⟩ := h <;>
    rcases Nat.decEq m i with hm | hm <;>
    first
      | (subst hm; simp [spawnCount, List.filter_cons])
      | (have hm2 : ¬ i = m := fun e => hm e.symm
         simp [spawnCount, List.filter_cons, hm, hm2])

theorem reapLoop_spawnCount (verbose : Bool) (t : TickInput) :
    ∀ (jobs : List Slot) (i : Nat) (v : Int) (tr : List Event) (jobs1 : List Slot) (v1 : Int)
      (tr1 : List Event), reapLoop verbose t i jobs v tr = .ok (jobs1, v1, tr1) →
      ∀ (m : Nat),
        (m < i ∨ i + jobs.length ≤ m → spawnCount m tr1 = spawnCount m tr) ∧
        ∀ (k : Nat) (a b : Slot), jobs[k]? = some a → jobs1[k]? = some b → m = i + k →
          (spawnCount m tr1 : Int) = spawnCount m tr + (b.job.runs - a.job.runs) := by
  intro jobs
  induction jobs with
  | nil =>
    intro i v tr jobs1 v1 tr1 h m
    simp only [reapLoop, Except.ok.injEq, Prod.mk.injEq] at h
    obtain ⟨-, -, rfl⟩ := h
    exact ⟨fun _ => rfl, fun k a b hk => by simp at hk⟩
  | cons x rest ih =>
    intro i v tr jobs1 v1 tr1 h m
    simp only [reapLoop] at h
    split at h
    · exact absurd h (by simp)
    · rename_i x1 va tra hx
      split at h
      · exact absurd h (by simp)
      · rename_i rest1 vb trb hrest
        simp only [Except.ok.injEq, Prod.mk.injEq] at h
        obtain ⟨rfl, -, rfl⟩ := h
        have hhead := reapJob_spawnCount _ _ _ _ _ _ _ _ _ _ hx m
        obtain ⟨hout, hin⟩ := ih _ _ _ _ _ _ hrest m
        constructor
        · intro hm
          have hne : m ≠ i := by
            simp only [List.length_cons] at hm
            omega
          have h1 : spawnCount m trb = spawnCount m tra := by
            apply hout
            simp only [List.length_cons] at hm
            omega
          rw [if_neg hne] at hhead
          rw [h1]
          omega
        · intro k a b hk hb hm
          cases k with
          | zero =>
            simp only [List.getElem?_cons_zero, Option.some.injEq] at hk hb
            subst hk hb
            have hmi : m = i := by omega
            have h1 : spawnCount m trb = spawnCount m tra := hout (Or.inl (by omega))
            rw [if_pos hmi] at hhead
            rw [h1]
            exact hhead
          | succ k =>
            simp only [List.getElem?_cons_succ] at hk hb
            have hne : m ≠ i := by omega
            rw [if_neg hne] at hhead
            have := hin k a b hk hb (by omega)
            omega

theorem reapLoop_length (verbose : Bool) (t : TickInput) :
    ∀ (jobs : List Slot) (i : Nat) (v : Int) (tr : List Event) (jobs1 : List Slot) (v1 : Int)
      (tr1 : List Event), reapLoop verbose t i jobs v tr = .ok (jobs1, v1, tr1) →
      jobs1.length = jobs.length := by
  intro jobs
  induction jobs with
  | nil =>
    intro i v tr jobs1 v1 tr1 h
    simp only [reapLoop, Except.ok.injEq, Prod.mk.injEq] at h
    rw [← h.1]
  | cons x rest ih =>
    intro i v tr jobs1 v1 tr1 h
    simp only [reapLoop] at h
    split at h
    · exact absurd h (by simp)
    · split at h
      · exact absurd h (by simp)
      · rename_i rest1 vb trb hrest
        simp only [Except.ok.injEq, Prod.mk.injEq] at h
        rw [← h.1]
        simp [ih _ _ _ _ _ _ hrest]

theorem commandConsole_spawnCount (jobs : List Slot) (killRet : Int) (line : List Char)
    (m : Nat) : spawnCount m (commandConsole jobs killRet line) = 0 := by
  simp only [commandConsole, signalCommand, sleepCommand]
  split_ifs <;> simp [spawnCount]

theorem broadcastLoop_spawnCount (line : List Char) (m : Nat) :
    ∀ (jobs : List Slot) (j : Nat), spawnCount m (broadcastLoop line j jobs).2 = 0 := by
  intro jobs
  induction jobs with
  | nil => intro j; simp [broadcastLoop, spawnCount]
  | cons s rest ih =>
    intro j
    have := ih (j + 1)
    simp only [broadcastLoop]
    split_ifs <;> simp_all [spawnCount]

theorem drainLoop_spawnCount (verbose : Bool) (pipeLine : Nat → Option (List Char)) (m : Nat) :
    ∀ (jobs : List Slot) (j : Nat), spawnCount m (drainLoop verbose pipeLine j jobs) = 0 := by
  intro jobs
  induction jobs with
  | nil => intro j; simp [drainLoop, spawnCount]
  | cons s rest ih =>
    intro j
    have := ih (j + 1)
    simp only [drainLoop]
    split_ifs <;> (try split) <;> simp_all [spawnCount]

theorem operatorInput_spawnCount (verbose : Bool) (t : TickInput) (s s1 : Sup)
    (h : operatorInput verbose t s = .ok s1) (m : Nat) :
    spawnCount m s1.trace = spawnCount m s.trace := by
  simp only [operatorInput] at h
  split at h
  · exact absurd h (by simp)
  · split_ifs at h
    · simp only [Except.ok.injEq] at h
      rw [← h]
      have hr : spawnCount m [Event.readLine] = 0 := by simp [spawnCount]
      simp only [spawnCount_append, commandConsole_spawnCount, hr, Nat.add_zero]
    · simp only [Except.ok.injEq] at h
      rw [← h]
      have hr : spawnCount m [Event.readLine] = 0 := by simp [spawnCount]
      simp only [spawnCount_append, broadcastLoop_spawnCount, drainLoop_spawnCount, hr,
        Nat.add_zero]

theorem spawnLoop_spawnCount (verbose : Bool) (forkOk : Nat → Bool) :
    ∀ (jobs : List Slot) (i : Nat) (tr : List Event) (jobs1 : List Slot) (tr1 : List Event),
      spawnLoop verbose forkOk i jobs tr = .ok (jobs1, tr1) →
      ∀ (m : Nat),
        (m < i ∨ i + jobs.length ≤ m → spawnCount m tr1 = spawnCount m tr) ∧
        ∀ (k : Nat) (a : Slot), jobs[k]? = some a → m = i + k →
          spawnCount m tr1 = spawnCount m tr + (if a.job.runnable then 1 else 0) := by
  intro jobs
  induction jobs with
  | nil =>
    intro i tr jobs1 tr1 h m
    simp only [spawnLoop, Except.ok.injEq, Prod.mk.injEq] at h
    obtain ⟨-, rfl⟩ := h
    exact ⟨fun _ => rfl, fun k a hk => by simp at hk⟩
  | cons x rest ih =>
    intro i tr jobs1 tr1 h m
    have hstep : ∃ tra rest1, spawnLoop verbose forkOk (i + 1) rest tra = .ok (rest1, tr1) ∧
        spawnCount m tra
          = spawnCount m tr + (if m = i then (if x.job.runnable then 1 else 0) else 0) := by
      simp only [spawnLoop] at h
      by_cases hr : x.job.runnable = true
      · simp only [hr, if_true, spawn_child] at h
        cases hf : forkOk i
        · simp [hf] at h
        · simp only [hf, if_true] at h
          split at h
          · exact absurd h (by simp)
          · rename_i rest1 trb hrest
            simp only [Except.ok.injEq, Prod.mk.injEq] at h
            obtain ⟨-, rfl⟩ := h
            refine ⟨_, rest1, hrest, ?_⟩
            rcases Nat.decEq m i with hm | hm
            · have hm2 : ¬ i = m := fun e => hm e.symm
              cases verbose <;> simp [spawnCount, List.filter_cons, hm, hm2]
            · subst hm
              cases verbose <;> simp [spawnCount, List.filter_cons, hr]
      · have hr2 : x.job.runnable = false := by simpa using hr
        simp only [hr2, Bool.false_eq_true, if_false] at h
        split at h
        · exact absurd h (by simp)
        · rename_i rest1 trb hrest
          simp only [Except.ok.injEq, Prod.mk.injEq] at h
          obtain ⟨-, rfl⟩ := h
          refine ⟨_, rest1, hrest, ?_⟩
          simp [hr]
    obtain ⟨tra, rest1, hrest, hhead⟩ := hstep
    obtain ⟨hout, hin⟩ := ih _ _ _ _ hrest m
    constructor
    · intro hm
      simp only [List.length_cons] at hm
      have hne : m ≠ i := by omega
      rw [if_neg hne] at hhead
      rw [hout (by omega), hhead]
      rfl
    · intro k a hk hm
      cases k with
      | zero =>
        simp only [List.getElem?_cons_zero, Option.some.injEq] at hk
        subst hk
        have hmi : m = i := by omega
        rw [if_pos hmi] at hhead
        rw [hout (Or.inl (by omega)), hhead]
      | succ k =>
        simp only [List.getElem?_cons_succ] at hk
        have hne : m ≠ i := by omega
        rw [if_neg hne] at hhead
        rw [hin k a hk (by omega), hhead]
        rfl

theorem startup_spawnsMatchRuns (env : LoadEnv) (garbage : Int) (forkOk : Nat → Bool)
    (lines : List (List Char)) (s0 : Sup) (h : startup env garbage forkOk lines = .ok s0) :
    SpawnsMatchRuns s0 := by
  intro k a hk
  obtain ⟨-, -, -, hruns⟩ := startup_get env garbage forkOk lines s0 h k a hk
  simp only [startup, startFrom] at h
  split at h
  · exact absurd h (by simp)
  · rename_i jobs tr hsp
    simp only [Except.ok.injEq] at h
    subst h
    simp only at hk ⊢
    have hmap := spawnLoop_spec _ _ _ _ _ _ _ hsp
    rw [hmap] at hk
    simp only [List.getElem?_map, Option.map_eq_some'] at hk
    obtain ⟨a0, ha0, rfl⟩ := hk
    have hc := (spawnLoop_spawnCount _ _ _ _ _ _ _ hsp (k + 1)).2 k a0 ha0 (by omega)
    have hrun : (spawned a0).job.runnable = a0.job.runnable := by
      unfold spawned; split_ifs <;> simp_all
    rw [hruns, hrun, hc]
    cases a0.job.runnable <;> simp [spawnCount]

theorem operatorInput_length (verbose : Bool) (t : TickInput) (s s1 : Sup)
    (h : operatorInput verbose t s = .ok s1) : s1.jobList.length = s.jobList.length := by
  simp only [operatorInput] at h
  split at h
  · exact absurd h (by simp)
  · split_ifs at h
    · simp only [Except.ok.injEq] at h
      rw [← h]
    · simp only [Except.ok.injEq] at h
      rw [← h]
      exact broadcastLoop_length _ _ _

theorem tick_spawnsMatchRuns (verbose : Bool) (t : TickInput) (s s1 : Sup)
    (h : tick verbose t s = .ok s1) (hinv : SpawnsMatchRuns s) : SpawnsMatchRuns s1 := by
  intro k c hc
  simp only [tick] at h
  split at h
  · exact absurd h (by simp)
  · rename_i jobs v tr hreap
    split_ifs at h
    have hlen1 := operatorInput_length verbose t _ s1 h
    have hlen2 := reapLoop_length verbose t _ _ _ _ _ _ _ hreap
    simp only at hlen1
    have hk : k < s.jobList.length := by
      have := (List.getElem?_eq_some_iff.mp hc).1
      omega
    have ha : s.jobList[k]? = some s.jobList[k] := List.getElem?_eq_getElem hk
    have hkb : k < jobs.length := by omega
    have hb : jobs[k]? = some jobs[k] := List.getElem?_eq_getElem hkb
    obtain ⟨c1, hc1, hsame⟩ := operatorInput_get verbose t _ s1 h k _ hb
    rw [hc] at hc1
    simp only [Option.some.injEq] at hc1
    subst hc1
    have hcount := (reapLoop_spawnCount verbose t _ _ _ _ _ _ _ hreap (k + 1)).2 k _ _ ha hb
      (by omega)
    have hop := operatorInput_spawnCount verbose t _ s1 h (k + 1)
    simp only at hop
    have h0 := hinv k _ ha
    have hr : c.job.runs = jobs[k].job.runs := by
      unfold SameButLines at hsame
      rw [hsame]
    rw [hop, hcount, h0, hr]
    omega

theorem run_spawnsMatchRuns (verbose : Bool) (s0 : Sup) (ts : List TickInput) (s : Sup)
    (hrun : Run verbose s0 ts s) (h0 : SpawnsMatchRuns s0) : SpawnsMatchRuns s := by
  induction hrun with
  | start => exact h0
  | step t s1 _ _ htick ih => exact tick_spawnsMatchRuns verbose t _ s1 htick ih

/-- The run count of a finite-limit job in the code: a job loaded with a
restart limit `N` (positive) whose process is found terminated in every loop
iteration has, after `n` iterations, a runs counter of `min (n + 1) N`, which
is the number of `spawn_child` calls made for it, and it is Ended exactly from
iteration `N` on: `N` runs in total, the initial run included. -/
theorem finite_limit_run_count (env : LoadEnv) (garbage : Int) (forkOk : Nat → Bool)
    (lines : List (List Char)) (s0 : Sup) (ts : List TickInput) (s : Sup) (k : Nat) (a0 : Slot)
    (N : Nat) (hstart : startup env garbage forkOk lines = .ok s0)
    (hk : s0.jobList[k]? = some a0) (hN : a0.job.restartCount = (N : Int)) (hpos : N ≠ 0)
    (hrunnable : a0.job.runnable = true)
    (hterm : ∀ t ∈ ts, Terminated (t.waits (k + 1)))
    (hrun : Run env.verboseFlag s0 ts s) :
    ∃ a, s.jobList[k]? = some a ∧
      a.job.runs = min ((ts.length : Int) + 1) (N : Int) ∧
      (spawnCount (k + 1) s.trace : Int) = a.job.runs ∧
      a.job.ended = decide (N ≤ ts.length) ∧
      (N ≤ ts.length → spawnCount (k + 1) s.trace = N ∧ a.job.ended = true) := by
  obtain ⟨g1, g2, -, g4⟩ := startup_get env garbage forkOk lines s0 hstart k a0 hk
  have h0 : AfterTicks (N : Int) 0 a0.job := by
    refine ⟨hN, ?_, hrunnable, ?_, ?_⟩
    · rw [g1, hN]; simp [hpos]
    · rw [g4, hrunnable]; simp; omega
    · rw [g2]; symm; simp; omega
  obtain ⟨a, ha, -, -, -, q4, q5⟩ :=
    run_afterTicks env.verboseFlag s0 ts s k (N : Int) hrun hterm ⟨a0, hk, h0⟩
  have hc := run_spawnsMatchRuns _ _ _ _ hrun
    (startup_spawnsMatchRuns env garbage forkOk lines s0 hstart) k a ha
  have he : a.job.ended = decide (N ≤ ts.length) := by
    rw [q5]; simp
  refine ⟨a, ha, q4, hc, he, fun hle => ⟨?_, ?_⟩⟩
  · rw [q4] at hc
    have : min ((ts.length : Int) + 1) (N : Int) = N := by omega
    rw [this] at hc
    exact_mod_cast hc
  · rw [he]; simpa using hle

/-- C2, evaluation of the code: the job file with the single line `2:::true`
registers job 1 with restart limit 2.  Its process is found terminated in
every loop iteration.  The job is spawned at start-up and once more in the
first iteration; in the second iteration it is not spawned again, every job
is Ended, and the program prints the exit notice and leaves.  `spawn_child`
has been called for the job 2 times in total, not 3. -/
theorem restart_limit_two_runs_twice :
    (loadFile sampleEnv 0 twoLimitJobFile).map
        (fun st => st.jobList.map fun j => (j.jobID, j.restartCount, j.infiniteRestart, j.runnable))
      = some [(1, 2, false, true)] ∧
    run sampleEnv 0 (fun _ => true) twoLimitJobFile
        [sampleTick exitedZero (some "go".toList), sampleTick exitedZero (some "go".toList)]
      = .error { code := 0,
                 trace := [Event.spawn 1, Event.exitedWith 1 0, Event.kill 1 9, Event.spawn 1,
                           Event.readLine, Event.write 1 "go".toList,
                           Event.forwarded 1 "go".toList, Event.exitedWith 1 0, Event.kill 1 9,
                           Event.noMoreViable] } ∧
    spawnCount 1 [Event.spawn 1, Event.exitedWith 1 0, Event.kill 1 9, Event.spawn 1,
                  Event.readLine, Event.write 1 "go".toList,
                  Event.forwarded 1 "go".toList, Event.exitedWith 1 0, Event.kill 1 9,
                  Event.noMoreViable] = 2 ∧
    (stateOf (run sampleEnv 0 (fun _ => true) twoLimitJobFile
        [sampleTick exitedZero (some "go".toList)])).jobList.map
        (fun x => (x.job.restartCount, x.job.runs, x.job.ended))
      = [(2, 2, false)] := by
  refine ⟨by decide, rfl, by decide, by decide⟩

/-! ### Termination -/

/-- When the reap loop leaves `viableWorkers < 1` and every job flagged Ended,
the loop body prints the exit notice and leaves with status 0 without calling
`read_line(stdin)`. -/
theorem tick_exits_when_all_ended (verbose : Bool) (t : TickInput) (s : Sup)
    (jobs : List Slot) (v : Int) (tr : List Event)
    (hreap : reapLoop verbose t 1 s.jobList s.viableWorkers s.trace = .ok (jobs, v, tr))
    (hv : v < 1) (hall : jobs.all (fun x => x.job.ended) = true) :
    tick verbose t s = .error { code := 0, trace := tr ++ [Event.noMoreViable] } := by
  simp only [tick, hreap]
  rw [if_pos ⟨hv, hall⟩]

/-- C3, evaluation of the code: `unopenedJobFile` registers job 1, whose input
file cannot be opened (never spawned), and job 2 with restart limit 1.  In
the first loop iteration job 2 is found terminated and is not restarted, so
no job can run any more (`viableWorkers = 0`).  The program does not leave:
it calls `read_line(stdin)`.  Given the line `hello` it processes it (a write
on job 1) and prints the notice only afterwards; at end of input it leaves
with status 0 without printing the notice at all. -/
theorem termination_with_unopened_job :
    (loadJobs sampleEnv 0 unopenedJobFile).jobList.map jobView
      = [(1, false, "cat".toList), (2, true, "true".toList)] ∧
    run sampleEnv 0 (fun _ => true) unopenedJobFile [sampleTick exitedZero (some "hello".toList)]
      = .error { code := 0,
                 trace := [Event.spawn 2, Event.exitedWith 2 0, Event.kill 2 9, Event.readLine,
                           Event.write 1 "hello".toList, Event.noMoreViable] } ∧
    run sampleEnv 0 (fun _ => true) unopenedJobFile [sampleTick exitedZero none]
      = .error { code := 0,
                 trace := [Event.spawn 2, Event.exitedWith 2 0, Event.kill 2 9, Event.readLine] } := by
  refine ⟨by decide, rfl, rfl⟩


/-! ### The restart budget -/

/-- C1: in every state that the supervisor reaches from a loaded job table
(initial spawn pass and then any number of loop iterations, with arbitrary
wait results, operator lines and pipe contents), a job whose restart limit is
a finite `N` (a positive number, not the unlimited value 0) has
`runs <= N + 1`, and `spawn_child` has been called for it at most `N + 1`
times. -/
theorem restart_budget_bound (env : LoadEnv) (garbage : Int) (forkOk : Nat → Bool)
    (lines : List (List Char)) (s0 : Sup) (ts : List TickInput) (s : Sup)
    (hstart : startup env garbage forkOk lines = .ok s0)
    (hrun : Run env.verboseFlag s0 ts s) :
    ∀ (k : Nat) (x : Slot), s.jobList[k]? = some x →
      ∀ N : Nat, N ≠ 0 → x.job.restartCount = (N : Int) →
        x.job.runs ≤ (N : Int) + 1 ∧ spawnCount (k + 1) s.trace ≤ N + 1 := by
  intro k x hx N hN hrc
  have hb := run_budget _ _ _ _ hrun (startup_budget env garbage forkOk lines s0 hstart) x
    (List.getElem?_mem hx)
  have hc := run_spawnsMatchRuns _ _ _ _ hrun
    (startup_spawnsMatchRuns env garbage forkOk lines s0 hstart) k x hx
  have := hb.2 (by omega)
  constructor <;> omega

/-- Witness of C1: `sampleJobFile` is loaded and started, and one loop
iteration is run in which every process is found terminated. -/
theorem restart_budget_bound_witness :
    startup sampleEnv 0 (fun _ => true) sampleJobFile = .ok sampleStart ∧
    sampleNext.jobList.map (fun x => (x.job.restartCount, x.job.runs)) = [(2, 2), (1, 0), (0, 2)] ∧
    ∀ (k : Nat) (x : Slot), sampleNext.jobList[k]? = some x →
      ∀ N : Nat, N ≠ 0 → x.job.restartCount = (N : Int) →
        x.job.runs ≤ (N : Int) + 1 ∧ spawnCount (k + 1) sampleNext.trace ≤ N + 1 :=
  ⟨rfl, by decide,
    restart_budget_bound sampleEnv 0 (fun _ => true) sampleJobFile sampleStart
      [sampleTick exitedZero (some "hello".toList)] sampleNext rfl
      (Run.step (sampleTick exitedZero (some "hello".toList)) sampleNext Run.start
        (by decide) rfl)⟩


/-! ### The status report -/

theorem reapJob_mirrored (verbose : Bool) (w : WaitResult) (fk : Bool) (i : Nat) (s s1 : Slot)
    (v v1 : Int) (tr tr1 : List Event)
    (h : reapJob verbose w fk i s v tr = .ok (s1, v1, tr1))
    (hm : s.sigRuns = s.job.runs ∧ s.sigLines = s.job.linesto) :
    s1.sigRuns = s1.job.runs ∧ s1.sigLines = s1.job.linesto := by
  simp only [reapJob, spawn_child] at h
  split_ifs at h <;>
    simp only [Except.ok.injEq, Prod.mk.injEq, reduceCtorEq] at h <;>
    obtain ⟨rfl, -, -⟩ := h <;>
    simp [hm.1, hm.2]

theorem reapLoop_mirrored (verbose : Bool) (t : TickInput) :
    ∀ (jobs : List Slot) (i : Nat) (v : Int) (tr : List Event) (jobs1 : List Slot) (v1 : Int)
      (tr1 : List Event), reapLoop verbose t i jobs v tr = .ok (jobs1, v1, tr1) →
      Mirrored jobs → Mirrored jobs1 := by
  intro jobs
  induction jobs with
  | nil =>
    intro i v tr jobs1 v1 tr1 h _ s hs
    simp only [reapLoop, Except.ok.injEq, Prod.mk.injEq] at h
    rw [← h.1] at hs
    simp at hs
  | cons a rest ih =>
    intro i v tr jobs1 v1 tr1 h hall s hs
    simp only [reapLoop] at h
    split at h
    · exact absurd h (by simp)
    · rename_i a1 va tra ha
      split at h
      · exact absurd h (by simp)
      · rename_i rest1 vb trb hrest
        simp only [Except.ok.injEq, Prod.mk.injEq] at h
        rw [← h.1] at hs
        rcases List.mem_cons.mp hs with e | e
        · rw [e]
          exact reapJob_mirrored _ _ _ _ _ _ _ _ _ _ ha (hall a (List.mem_cons_self _ _))
        · exact ih _ _ _ _ _ _ hrest (fun x hx => hall x (List.mem_cons_of_mem _ hx)) s e

theorem broadcastLoop_mirrored (line : List Char) :
    ∀ (jobs : List Slot) (j : Nat), Mirrored jobs → Mirrored (broadcastLoop line j jobs).1 := by
  intro jobs
  induction jobs with
  | nil => intro j _ s hs; simp [broadcastLoop] at hs
  | cons a rest ih =>
    intro j hall s hs
    have ha := hall a (List.mem_cons_self _ _)
    have hr := ih (j + 1) (fun x hx => hall x (List.mem_cons_of_mem _ hx))
    simp only [broadcastLoop] at hs
    split_ifs at hs <;> simp only [List.mem_cons] at hs <;> rcases hs with e | e <;>
      first
        | exact hr s e
        | (rw [e]; exact ha)
        | (rw [e]; simp [ha.1])

theorem tick_mirrored (verbose : Bool) (t : TickInput) (s s1 : Sup)
    (h : tick verbose t s = .ok s1) (hm : Mirrored s.jobList) : Mirrored s1.jobList := by
  simp only [tick] at h
  split at h
  · exact absurd h (by simp)
  · rename_i jobs v tr hreap
    split_ifs at h
    have hj := reapLoop_mirrored verbose t _ _ _ _ _ _ _ hreap hm
    simp only [operatorInput] at h
    split at h
    · exact absurd h (by simp)
    · split_ifs at h
      · simp only [Except.ok.injEq] at h
        rw [← h]; exact hj
      · simp only [Except.ok.injEq] at h
        rw [← h]
        exact broadcastLoop_mirrored _ _ _ hj

theorem run_mirrored (verbose : Bool) (s0 : Sup) (ts : List TickInput) (s : Sup)
    (hrun : Run verbose s0 ts s) (h0 : Mirrored s0.jobList) : Mirrored s.jobList := by
  induction hrun with
  | start => exact h0
  | step t s1 _ _ htick ih => exact tick_mirrored verbose t _ s1 htick ih

theorem startup_mirrored (env : LoadEnv) (garbage : Int) (forkOk : Nat → Bool)
    (lines : List (List Char)) (s0 : Sup) (h : startup env garbage forkOk lines = .ok s0) :
    Mirrored s0.jobList := by
  simp only [startup, startFrom] at h
  split at h
  · exact absurd h (by simp)
  · rename_i jobs tr hsp
    simp only [Except.ok.injEq] at h
    rw [← h]
    simp only
    rw [spawnLoop_spec _ _ _ _ _ _ _ hsp]
    intro x hx
    simp only [initCounters, List.map_map, List.mem_map, Function.comp] at hx
    obtain ⟨j, -, rfl⟩ := hx
    unfold spawned
    split_ifs <;> simp

theorem statusLoop_of_mirrored :
    ∀ (jobs : List Slot) (i : Nat), Mirrored jobs →
      statusLoop i jobs = expectedReport i jobs := by
  intro jobs
  induction jobs with
  | nil => intro i _; rfl
  | cons x rest ih =>
    intro i hm
    have hx := hm x (List.mem_cons_self _ _)
    simp only [statusLoop, expectedReport,
      ih (i + 1) (fun y hy => hm y (List.mem_cons_of_mem _ hy)), hx.1, hx.2]

theorem expectedReport_length :
    ∀ (jobs : List Slot) (i : Nat), (expectedReport i jobs).length = jobs.length := by
  intro jobs
  induction jobs with
  | nil => intro i; rfl
  | cons x rest ih => intro i; simp [expectedReport, ih]

theorem expectedReport_get :
    ∀ (jobs : List Slot) (i k : Nat) (x : Slot), jobs[k]? = some x →
      (expectedReport i jobs)[k]?
        = some { id := i + k, runs := x.job.runs, linesto := x.job.linesto } := by
  intro jobs
  induction jobs with
  | nil => intro i k x h; simp at h
  | cons y rest ih =>
    intro i k x h
    cases k with
    | zero =>
      simp only [List.getElem?_cons_zero, Option.some.injEq] at h
      simp [expectedReport, h]
    | succ k =>
      simp only [List.getElem?_cons_succ] at h
      simp only [expectedReport, List.getElem?_cons_succ, ih (i + 1) k x h]
      congr 2
      omega

/-- C11: in every state at the head of the supervisor loop (after the initial
spawn pass and after any number of loop iterations, whatever the external
inputs), the rows of the signals table repeat the `runs` and `linesto` of the
jobs, and the handler for `SIGHUP` prints exactly one line per job of the
table, Ended and never-spawned jobs included, in ascending id order from 1:
the line at position `k` is `k+1:runs:linesto` with the current counters of
job `k + 1`. -/
theorem status_report (env : LoadEnv) (garbage : Int) (forkOk : Nat → Bool)
    (lines : List (List Char)) (s0 : Sup) (ts : List TickInput) (s : Sup)
    (hstart : startup env garbage forkOk lines = .ok s0)
    (hrun : Run env.verboseFlag s0 ts s) :
    Mirrored s.jobList ∧
    sig_handler SIGHUP s = expectedReport 1 s.jobList ∧
    (sig_handler SIGHUP s).length = s.jobList.length ∧
    ∀ (k : Nat) (x : Slot), s.jobList[k]? = some x →
      (sig_handler SIGHUP s)[k]?
        = some { id := k + 1, runs := x.job.runs, linesto := x.job.linesto } := by
  have hm := run_mirrored _ _ _ _ hrun (startup_mirrored env garbage forkOk lines s0 hstart)
  have he : sig_handler SIGHUP s = expectedReport 1 s.jobList := by
    simp only [sig_handler, if_true]
    exact statusLoop_of_mirrored _ _ hm
  refine ⟨hm, he, ?_, ?_⟩
  · rw [he, expectedReport_length]
  · intro k x hx
    rw [he, expectedReport_get _ 1 k x hx]
    congr 2
    omega

set_option maxRecDepth 100000 in
/-- Witness of C11: the job file with 100 lines `0:::cat` is loaded and
started, and one loop iteration is run in which the operator line `go` is
broadcast.  The report then has 100 lines and its last line is `100:1:1`, the
counters of job 100; before the iteration it was `100:1:0`. -/
theorem status_report_witness :
    startup sampleEnv 0 (fun _ => true) (catJobFile 100) = .ok hundredStart ∧
    hundredNext.jobList.length = 100 ∧
    (sig_handler SIGHUP hundredStart)[99]? = some { id := 100, runs := 1, linesto := 0 } ∧
    (sig_handler SIGHUP hundredNext)[99]? = some { id := 100, runs := 1, linesto := 1 } ∧
    (Mirrored hundredNext.jobList ∧
      sig_handler SIGHUP hundredNext = expectedReport 1 hundredNext.jobList ∧
      (sig_handler SIGHUP hundredNext).length = hundredNext.jobList.length ∧
      ∀ (k : Nat) (x : Slot), hundredNext.jobList[k]? = some x →
        (sig_handler SIGHUP hundredNext)[k]?
          = some { id := k + 1, runs := x.job.runs, linesto := x.job.linesto }) :=
  ⟨rfl, by decide, by decide, by decide,
    status_report sampleEnv 0 (fun _ => true) (catJobFile 100) hundredStart [echoTick] hundredNext
      rfl (Run.step echoTick hundredNext Run.start (by decide) rfl)⟩

/-! ### Exit statuses -/

theorem spawnLoop_halt_code (verbose : Bool) (forkOk : Nat → Bool) :
    ∀ (jobs : List Slot) (i : Nat) (tr : List Event) (h : Halt),
      spawnLoop verbose forkOk i jobs tr = .error h →
      h.code = 0 ∧ h.trace.getLast? = some Event.forkFailed := by
  intro jobs
  induction jobs with
  | nil => intro i tr h e; simp [spawnLoop] at e
  | cons x rest ih =>
    intro i tr h e
    simp only [spawnLoop, spawn_child] at e
    cases hr : x.job.runnable
    · simp only [hr, Bool.false_eq_true, if_false] at e
      split at e
      · rename_i h1 he
        simp only [Except.error.injEq] at e
        subst e
        exact ih _ _ _ he
      · exact absurd e (by simp)
    · simp only [hr, if_true] at e
      cases hf : forkOk i
      · simp only [hf, Bool.false_eq_true, if_false, Except.error.injEq] at e
        subst e
        simp
      · simp only [hf, if_true] at e
        split at e
        · rename_i h1 he
          simp only [Except.error.injEq] at e
          subst e
          exact ih _ _ _ he
        · exact absurd e (by simp)

theorem reapJob_halt_code (verbose : Bool) (w : WaitResult) (fk : Bool) (i : Nat) (s : Slot)
    (v : Int) (tr : List Event) (h : Halt)
    (e : reapJob verbose w fk i s v tr = .error h) :
    h.code = 0 ∧ h.trace.getLast? = some Event.forkFailed := by
  simp only [reapJob, spawn_child] at e
  split_ifs at e <;>
    simp only [Except.error.injEq, reduceCtorEq] at e <;>
    subst e <;> simp

theorem reapLoop_halt_code (verbose : Bool) (t : TickInput) :
    ∀ (jobs : List Slot) (i : Nat) (v : Int) (tr : List Event) (h : Halt),
      reapLoop verbose t i jobs v tr = .error h →
      h.code = 0 ∧ h.trace.getLast? = some Event.forkFailed := by
  intro jobs
  induction jobs with
  | nil => intro i v tr h e; simp [reapLoop] at e
  | cons x rest ih =>
    intro i v tr h e
    simp only [reapLoop] at e
    split at e
    · rename_i h1 he
      simp only [Except.error.injEq] at e
      subst e
      exact reapJob_halt_code _ _ _ _ _ _ _ _ he
    · split at e
      · rename_i h1 he
        simp only [Except.error.injEq] at e
        subst e
        exact ih _ _ _ _ he
      · exact absurd e (by simp)

theorem tick_halt_code (verbose : Bool) (t : TickInput) (s : Sup) (h : Halt)
    (e : tick verbose t s = .error h) : h.code = 0 := by
  simp only [tick] at e
  split at e
  · rename_i h1 he
    simp only [Except.error.injEq] at e
    subst e
    exact (reapLoop_halt_code _ _ _ _ _ _ _ he).1
  · split_ifs at e
    · simp only [Except.error.injEq] at e
      subst e; rfl
    · simp only [operatorInput] at e
      split at e
      · simp only [Except.error.injEq] at e
        subst e; rfl
      · split_ifs at e

theorem supervise_halt_code (verbose : Bool) :
    ∀ (inputs : List TickInput) (s : Sup) (h : Halt),
      supervise verbose inputs s = .error h → h.code = 0 := by
  intro inputs
  induction inputs with
  | nil =>
    intro s h e
    simp only [supervise] at e
    split_ifs at e
    simp only [Except.error.injEq] at e
    subst e; rfl
  | cons t ts ih =>
    intro s h e
    simp only [supervise] at e
    split_ifs at e
    · split at e
      · rename_i h1 he
        simp only [Except.error.injEq] at e
        subst e
        exact tick_halt_code _ _ _ _ he
      · exact ih _ _ e
    · simp only [Except.error.injEq] at e
      subst e; rfl

/-- C12 (amended): when `fork` fails, `spawn_child` prints `fork() failed!`
and the program leaves at once with exit status 0; every exit of the program
after the job file has been opened, normal shutdown included, has status 0,
so the status of a fork failure is the status of success; it differs from
the status 2 used when the job file cannot be opened. -/
theorem fork_failure_exit_status :
    (∀ (i : Nat) (tr : List Event),
      spawn_child i false tr
        = .error { code := 0, trace := tr ++ [Event.spawn i, Event.forkFailed] }) ∧
    (∀ (env : LoadEnv) (garbage : Int) (forkOk : Nat → Bool) (lines : List (List Char))
        (h : Halt), startup env garbage forkOk lines = .error h →
      h.code = 0 ∧ h.trace.getLast? = some Event.forkFailed) ∧
    (∀ (env : LoadEnv) (garbage : Int) (forkOk : Nat → Bool) (lines : List (List Char))
        (inputs : List TickInput) (h : Halt),
      run env garbage forkOk lines inputs = .error h → h.code = 0) ∧
    open_jobfile false = .error 2 := by
  refine ⟨fun i tr => rfl, ?_, ?_, rfl⟩
  · intro env garbage forkOk lines h e
    simp only [startup, startFrom] at e
    split at e
    · rename_i h1 he
      simp only [Except.error.injEq] at e
      subst e
      exact spawnLoop_halt_code _ _ _ _ _ _ he
    · exact absurd e (by simp)
  · intro env garbage forkOk lines inputs h e
    simp only [run] at e
    split at e
    · rename_i h1 he
      simp only [Except.error.injEq] at e
      subst e
      simp only [startup, startFrom] at he
      split at he
      · rename_i h2 he2
        simp only [Except.error.injEq] at he
        subst he
        exact (spawnLoop_halt_code _ _ _ _ _ _ he2).1
      · exact absurd he (by simp)
    · exact supervise_halt_code _ _ _ _ e

/-- Witness of C12 (amended): `fork` fails for the first job of
`sampleJobFile`. -/
theorem fork_failure_exit_status_witness :
    startup sampleEnv 0 (fun _ => false) sampleJobFile
      = .error { code := 0, trace := [Event.spawn 1, Event.forkFailed] } ∧
    (({ code := 0, trace := [Event.spawn 1, Event.forkFailed] } : Halt).code = 0 ∧
      ({ code := 0, trace := [Event.spawn 1, Event.forkFailed] } : Halt).trace.getLast?
        = some Event.forkFailed) :=
  ⟨rfl, fork_failure_exit_status.2.1 sampleEnv 0 (fun _ => false) sampleJobFile _ rfl⟩

/-- Counterexample to C12: when `fork` fails for the first job of
`sampleJobFile` the program leaves with status 0, and a normal shutdown
(`runOnceJobFile`, whose only job terminates and is not restarted) leaves with
status 0 as well: the two statuses are not distinct. -/
theorem fork_failure_exit_status_counterexample :
    run sampleEnv 0 (fun _ => false) sampleJobFile []
      = .error { code := 0, trace := [Event.spawn 1, Event.forkFailed] } ∧
    run sampleEnv 0 (fun _ => true) runOnceJobFile [sampleTick exitedZero none]
      = .error { code := 0,
                 trace := [Event.spawn 1, Event.exitedWith 1 0, Event.kill 1 9,
                           Event.noMoreViable] } :=
  ⟨rfl, rfl⟩


/-! ### The viable-worker counter -/

theorem reapJob_goodLimit (verbose : Bool) (w : WaitResult) (fk : Bool) (i : Nat) (s s1 : Slot)
    (v v1 : Int) (tr tr1 : List Event)
    (h : reapJob verbose w fk i s v tr = .ok (s1, v1, tr1)) (hg : GoodLimit s.job) :
    GoodLimit s1.job := by
  refine ⟨reapJob_budget _ _ _ _ _ _ _ _ _ _ h hg.1, ?_⟩
  have hnn := hg.2
  simp only [reapJob, spawn_child] at h
  split_ifs at h <;>
    simp only [Except.ok.injEq, Prod.mk.injEq, reduceCtorEq] at h <;>
    obtain ⟨rfl, -, -⟩ := h <;>
    exact hnn

theorem goodLimit_dead_branch (j : JobProps) (hg : GoodLimit j) :
    ¬ (j.runs > j.restartCount ∧ j.infiniteRestart = false) := by
  obtain ⟨⟨h1, h2⟩, h3⟩ := hg
  rintro ⟨a, b⟩
  rw [h1] at b
  have hne : j.restartCount ≠ 0 := by simpa using b
  have := h2 (by omega)
  omega

theorem reapJob_viable (verbose : Bool) (w : WaitResult) (fk : Bool) (i : Nat) (s s1 : Slot)
    (v v1 : Int) (tr tr1 : List Event)
    (h : reapJob verbose w fk i s v tr = .ok (s1, v1, tr1)) (hg : GoodLimit s.job) :
    v1 + (if viableOne s = true then 1 else 0) = v + (if viableOne s1 = true then 1 else 0) := by
  have hdead := goodLimit_dead_branch s.job hg
  simp only [reapJob, spawn_child] at h
  split_ifs at h <;>
    simp only [Except.ok.injEq, Prod.mk.injEq, reduceCtorEq] at h <;>
    obtain ⟨rfl, rfl, -⟩ := h <;>
    simp_all [viableOne]

theorem countViable_cons (x : Slot) (rest : List Slot) :
    (countViable (x :: rest) : Int) = (if viableOne x = true then 1 else 0) + countViable rest := by
  unfold countViable
  cases h : viableOne x <;> simp [List.filter_cons, h]
  omega

theorem countViable_append (a b : List Slot) :
    countViable (a ++ b) = countViable a + countViable b := by
  simp [countViable]

theorem reapLoop_viable (verbose : Bool) (t : TickInput) :
    ∀ (jobs : List Slot) (i : Nat) (v : Int) (tr : List Event) (jobs1 : List Slot) (v1 : Int)
      (tr1 : List Event), reapLoop verbose t i jobs v tr = .ok (jobs1, v1, tr1) →
      (∀ x ∈ jobs, GoodLimit x.job) →
      (∀ x ∈ jobs1, GoodLimit x.job) ∧ v1 + countViable jobs = v + countViable jobs1 := by
  intro jobs
  induction jobs with
  | nil =>
    intro i v tr jobs1 v1 tr1 h _
    simp only [reapLoop, Except.ok.injEq, Prod.mk.injEq] at h
    obtain ⟨rfl, rfl, -⟩ := h
    exact ⟨fun x hx => by simp at hx, rfl⟩
  | cons a rest ih =>
    intro i v tr jobs1 v1 tr1 h hall
    simp only [reapLoop] at h
    split at h
    · exact absurd h (by simp)
    · rename_i a1 va tra ha
      split at h
      · exact absurd h (by simp)
      · rename_i rest1 vb trb hrest
        simp only [Except.ok.injEq, Prod.mk.injEq] at h
        obtain ⟨rfl, rfl, -⟩ := h
        have hga := hall a (List.mem_cons_self _ _)
        obtain ⟨i1, i2⟩ := ih _ _ _ _ _ _ hrest (fun x hx => hall x (List.mem_cons_of_mem _ hx))
        have h1 := reapJob_viable _ _ _ _ _ _ _ _ _ _ ha hga
        constructor
        · intro x hx
          rcases List.mem_cons.mp hx with e | e
          · rw [e]; exact reapJob_goodLimit _ _ _ _ _ _ _ _ _ _ ha hga
          · exact i1 x e
        · rw [countViable_cons, countViable_cons]
          omega

theorem broadcastLoop_viable (line : List Char) :
    ∀ (jobs : List Slot) (j : Nat), (∀ x ∈ jobs, GoodLimit x.job) →
      (∀ x ∈ (broadcastLoop line j jobs).1, GoodLimit x.job) ∧
      countViable (broadcastLoop line j jobs).1 = countViable jobs := by
  intro jobs
  induction jobs with
  | nil => intro j _; simp [broadcastLoop, countViable]
  | cons a rest ih =>
    intro j hall
    have ha := hall a (List.mem_cons_self _ _)
    obtain ⟨i1, i2⟩ := ih (j + 1) (fun x hx => hall x (List.mem_cons_of_mem _ hx))
    have hc1 := countViable_cons a rest
    simp only [broadcastLoop]
    split_ifs
    · refine ⟨?_, ?_⟩
      · intro x hx
        rcases List.mem_cons.mp hx with e | e
        · rw [e]; exact ha
        · exact i1 x e
      · have hc2 := countViable_cons
          { a with job := { a.job with linesto := a.job.linesto + 1 },
                   sigLines := a.job.linesto + 1 } (broadcastLoop line (j + 1) rest).1
        simp only [viableOne] at hc1 hc2
        dsimp only
        omega
    · refine ⟨?_, ?_⟩
      · intro x hx
        rcases List.mem_cons.mp hx with e | e
        · rw [e]; exact ha
        · exact i1 x e
      · have hc2 := countViable_cons
          { a with job := { a.job with linesto := 0 }, sigLines := 0 }
          (broadcastLoop line (j + 1) rest).1
        simp only [viableOne] at hc1 hc2
        dsimp only
        omega
    · refine ⟨?_, ?_⟩
      · intro x hx
        rcases List.mem_cons.mp hx with e | e
        · rw [e]; exact ha
        · exact i1 x e
      · have hc2 := countViable_cons a (broadcastLoop line (j + 1) rest).1
        dsimp only
        omega

/-- The invariant of the supervisor state at the loop head. -/
theorem tick_viable (verbose : Bool) (t : TickInput) (s s1 : Sup)
    (h : tick verbose t s = .ok s1) (hg : ∀ x ∈ s.jobList, GoodLimit x.job)
    (hv : s.viableWorkers = countViable s.jobList) :
    (∀ x ∈ s1.jobList, GoodLimit x.job) ∧ s1.viableWorkers = countViable s1.jobList := by
  simp only [tick] at h
  split at h
  · exact absurd h (by simp)
  · rename_i jobs v tr hreap
    split_ifs at h
    obtain ⟨g1, g2⟩ := reapLoop_viable verbose t _ _ _ _ _ _ _ hreap hg
    have hv1 : v = countViable jobs := by omega
    simp only [operatorInput] at h
    split at h
    · exact absurd h (by simp)
    · split_ifs at h
      · simp only [Except.ok.injEq] at h
        rw [← h]; exact ⟨g1, hv1⟩
      · simp only [Except.ok.injEq] at h
        rw [← h]
        obtain ⟨b1, b2⟩ := broadcastLoop_viable _ _ 1 g1
        exact ⟨b1, by simp only [b2]; exact hv1⟩

theorem run_viable (verbose : Bool) (s0 : Sup) (ts : List TickInput) (s : Sup)
    (hrun : Run verbose s0 ts s) (hg : ∀ x ∈ s0.jobList, GoodLimit x.job)
    (hv : s0.viableWorkers = countViable s0.jobList) :
    (∀ x ∈ s.jobList, GoodLimit x.job) ∧ s.viableWorkers = countViable s.jobList := by
  induction hrun with
  | start => exact ⟨hg, hv⟩
  | step t s1 _ _ htick ih => exact tick_viable verbose t _ s1 htick ih.1 ih.2

theorem countViable_start :
    ∀ (jl : List JobProps), (∀ j ∈ jl, j.ended = false) →
      countViable ((initCounters jl).map spawned) = countRunnable jl := by
  intro jl
  induction jl with
  | nil => intro _; rfl
  | cons j rest ih =>
    intro h
    have hj := h j (List.mem_cons_self _ _)
    have hr := ih (fun x hx => h x (List.mem_cons_of_mem _ hx))
    simp only [initCounters, List.map_cons, List.map_map] at hr ⊢
    simp only [countViable, countRunnable] at hr ⊢
    cases hrun : j.runnable <;>
      simp [List.filter_cons, viableOne, spawned, hrun, hj, hr]

theorem startup_viable (env : LoadEnv) (garbage : Int) (forkOk : Nat → Bool)
    (lines : List (List Char)) (s0 : Sup) (h : startup env garbage forkOk lines = .ok s0)
    (hlim : ∀ j ∈ (loadJobs env garbage lines).jobList, 0 ≤ j.restartCount)
    (hshort : ∀ raw ∈ lines, registers env raw = true → (jobField raw 3).length ≤ 500) :
    (∀ x ∈ s0.jobList, GoodLimit x.job) ∧ s0.viableWorkers = countViable s0.jobList := by
  have hbud := startup_budget env garbage forkOk lines s0 h
  have hended : ∀ j ∈ (loadJobs env garbage lines).jobList, j.ended = false := by
    apply loadFold_forall env (fun j => j.ended = false)
    · intro k n a b c
      exact (registerJob_spec env k n a b c).2.2.2.2.1
    · intro j hj; simp [LoadState.initial] at hj
  obtain ⟨-, f4⟩ := loadFold_spec env lines (LoadState.initial garbage) hshort
  obtain ⟨f2, f3⟩ := loadFold_count env lines (LoadState.initial garbage)
  have e2 : (loadJobs env garbage lines).jobList.length = (loadJobs env garbage lines).jobCount := by
    simp only [loadJobs]
    rw [f2, f3]
    simp [LoadState.initial]
  have e4 : (loadJobs env garbage lines).invalidJobs
      = countNotRunnable (loadJobs env garbage lines).jobList := by
    simpa [loadJobs, LoadState.initial, countNotRunnable] using f4
  have hsplit := count_split (loadJobs env garbage lines).jobList
  have hcount : initialViable (loadJobs env garbage lines)
      = (countRunnable (loadJobs env garbage lines).jobList : Int) := by
    unfold initialViable
    rw [e4, ← e2]
    omega
  simp only [startup, startFrom] at h
  split at h
  · exact absurd h (by simp)
  · rename_i jobs tr hsp
    simp only [Except.ok.injEq] at h
    have hjobs := spawnLoop_spec _ _ _ _ _ _ _ hsp
    subst h
    simp only at hbud ⊢
    constructor
    · intro x hx
      refine ⟨hbud x hx, ?_⟩
      rw [hjobs] at hx
      simp only [initCounters, List.map_map, List.mem_map, Function.comp] at hx
      obtain ⟨j, hj, rfl⟩ := hx
      have := hlim j hj
      unfold spawned
      split_ifs <;> simpa using this
    · rw [hjobs, countViable_start _ hended, hcount]

theorem reapJob_still_running (verbose : Bool) (w : WaitResult) (fk : Bool) (i : Nat) (x : Slot)
    (v : Int) (tr : List Event) (hret : w.ret = 0)
    (hdead : ¬ (x.job.runs > x.job.restartCount ∧ x.job.infiniteRestart = false)) :
    reapJob verbose w fk i x v tr = .ok (x, v, tr) := by
  obtain ⟨⟨_, _, _, _, _, _, r, e, _, _⟩, _, _⟩ := x
  cases r <;> cases e <;> simp_all [reapJob]
  intro _ h2
  by_contra h3
  rw [hdead (by omega)] at h2
  exact absurd h2 (by simp)

/-- The viable-worker counter for tables without overlong commands: for every
loaded job table whose restart limits are non-negative and whose commands have
at most 500 characters, in every state at the head of the supervisor loop
`viableWorkers` is the number of jobs with `runnable = true` and
`ended = false`; the same holds inside the reap loop after each job's
reap/restart step (`pre` are the jobs already handled in the iteration, `post`
the others); the branch `runs > restartCount && !infiniteRestart` is never
taken, and a job whose process is found still running is left as it is. -/
theorem viable_of_short_commands (env : LoadEnv) (garbage : Int) (forkOk : Nat → Bool)
    (lines : List (List Char)) (s0 : Sup) (ts : List TickInput) (s : Sup)
    (hlim : ∀ j ∈ (loadJobs env garbage lines).jobList, 0 ≤ j.restartCount)
    (hshort : ∀ raw ∈ lines, registers env raw = true → (jobField raw 3).length ≤ 500)
    (hstart : startup env garbage forkOk lines = .ok s0)
    (hrun : Run env.verboseFlag s0 ts s) :
    s.viableWorkers = countViable s.jobList ∧
    (∀ (t : TickInput) (pre post pre1 : List Slot) (v1 : Int) (tr1 : List Event),
      s.jobList = pre ++ post →
      reapLoop env.verboseFlag t 1 pre s.viableWorkers s.trace = .ok (pre1, v1, tr1) →
      v1 = countViable (pre1 ++ post)) ∧
    (∀ x ∈ s.jobList, ¬ (x.job.runs > x.job.restartCount ∧ x.job.infiniteRestart = false)) ∧
    (∀ x ∈ s.jobList, ∀ (w : WaitResult) (fk : Bool) (i : Nat) (v : Int) (tr : List Event),
      w.ret = 0 → reapJob env.verboseFlag w fk i x v tr = .ok (x, v, tr)) := by
  obtain ⟨g0, v0⟩ := startup_viable env garbage forkOk lines s0 hstart hlim hshort
  obtain ⟨hg, hv⟩ := run_viable _ _ _ _ hrun g0 v0
  refine ⟨hv, ?_, ?_, ?_⟩
  · intro t pre post pre1 v1 tr1 hs hreap
    have hpre : ∀ x ∈ pre, GoodLimit x.job := fun x hx =>
      hg x (by rw [hs]; exact List.mem_append_left _ hx)
    obtain ⟨-, hc⟩ := reapLoop_viable _ t _ _ _ _ _ _ _ hreap hpre
    rw [hv, hs, countViable_append] at hc
    rw [countViable_append]
    push_cast at hc ⊢
    omega
  · intro x hx
    exact goodLimit_dead_branch x.job (hg x hx)
  · intro x hx w fk i v tr hret
    exact reapJob_still_running _ _ _ _ _ _ _ hret (goodLimit_dead_branch x.job (hg x hx))

set_option maxRecDepth 100000 in
/-- C13, evaluation of the code: the job file with the single line `1:::`
followed by a command of 501 characters is loaded; its restart limit is 1.
The copy of the command clears `runnable` without a count in `invalidJobs`,
the initial spawn pass spawns nothing, and the supervisor loop is entered
with `viableWorkers = 1` while no job has `runnable = true`. -/
theorem viable_counter_with_overlong_command :
    (loadFile sampleEnv 0 longCommandJobFile).map
        (fun st => st.jobList.map fun j => (j.restartCount, j.runnable, j.ended))
      = some [(1, false, false)] ∧
    (stateOf (startup sampleEnv 0 (fun _ => true) longCommandJobFile)).viableWorkers = 1 ∧
    countViable (stateOf (startup sampleEnv 0 (fun _ => true) longCommandJobFile)).jobList = 0 ∧
    (stateOf (startup sampleEnv 0 (fun _ => true) longCommandJobFile)).trace = [] ∧
    (stateOf (startup sampleEnv 0 (fun _ => true) longCommandJobFile)).jobList.length = 1 := by
  decide

/-! ### Signals to jobs that were never spawned -/

/-- C14, evaluation of the code: job 2 of `sampleJobFile` could not open its
redirect files, is not runnable and is never spawned.  The operator line
`*signal 2 9` passes the job check (the Ended flag of job 2 is clear) and the
console calls `kill(pids[2], 9)`, although no `spawn_child` call was made for
job 2. -/
theorem signal_to_never_spawned_job :
    (loadJobs sampleEnv 0 sampleJobFile).jobList.map jobView
      = [(1, true, "echo hi".toList), (2, false, "cat".toList), (3, true, "cat".toList)] ∧
    (stateOf (run sampleEnv 0 (fun _ => true) sampleJobFile
        [sampleTick stillRunning (some "*signal 2 9".toList)])).trace
      = [Event.spawn 1, Event.spawn 3, Event.readLine, Event.kill 2 9] ∧
    spawnCount 2 (stateOf (run sampleEnv 0 (fun _ => true) sampleJobFile
        [sampleTick stillRunning (some "*signal 2 9".toList)])).trace = 0 := by
  decide

/-! ### Index bounds -/

theorem allocation_bounds :
    ∀ n : Nat, n + 2 ≤ (allocation n).1 ∧ (1 ≤ n → (allocation n).2 = (allocation n).1) := by
  intro n
  induction n with
  | zero => simp [allocation]
  | succ n ih =>
    obtain ⟨h1, h2⟩ := ih
    simp only [allocation]
    split_ifs with hg
    · exact ⟨by simp only; omega, fun _ => rfl⟩
    · refine ⟨by omega, fun _ => ?_⟩
      rcases Nat.eq_zero_or_pos n with h0 | h0
      · subst h0
        simp [allocation] at hg
      · exact h2 h0

theorem loadFold_arraySize (env : LoadEnv) :
    ∀ (lines : List (List Char)) (st : LoadState),
      st.arraySize = (allocation st.jobCount).1 →
      (lines.foldl (loadLine env) st).arraySize
        = (allocation (lines.foldl (loadLine env) st).jobCount).1 := by
  intro lines
  induction lines with
  | nil => intro st h; simpa using h
  | cons raw rest ih =>
    intro st h
    simp only [List.foldl_cons]
    apply ih
    cases hr : registers env raw
    · obtain ⟨s1, -, s3, -⟩ := loadLine_skip env st raw hr
      rw [s1, s3]; exact h
    · rw [loadLine_register env st raw hr]
      simp only [growArray, allocation, h]
      split_ifs <;> rfl

theorem mem_loopIndices (n i : Nat) : i ∈ loopIndices n ↔ 1 ≤ i ∧ i ≤ n := by
  simp only [loopIndices, List.mem_map, List.mem_range]
  constructor
  · rintro ⟨k, hk, rfl⟩; omega
  · rintro ⟨h1, h2⟩; exact ⟨i - 1, by omega, by omega⟩

/-- C15, the code on every job file with at least one accepted job (`N` is
the final `jobCount`): `arraySize` and the allocated capacity follow
`allocation`, and `N` is below the capacity, so the indices `1..N` are valid
for `jobList` and `pids`; the index `N` is used on `jobStatuses`, which has
only `N` elements, so the indices `1..N` are not all valid for it; and the
indices `1..N` are valid rows of `signals` only when `N` is below 100. -/
theorem index_bounds (env : LoadEnv) (garbage : Int) (lines : List (List Char))
    (hN : 1 ≤ (loadJobs env garbage lines).jobCount) :
    (loadJobs env garbage lines).arraySize
      = (allocation (loadJobs env garbage lines).jobCount).1 ∧
    (loadJobs env garbage lines).jobCount < (loadJobs env garbage lines).arraySize ∧
    InBounds (allocation (loadJobs env garbage lines).jobCount).2
      (loopIndices (loadJobs env garbage lines).jobCount) ∧
    ¬ InBounds (jobStatusesLength (loadJobs env garbage lines).jobCount)
      (loopIndices (loadJobs env garbage lines).jobCount) ∧
    (InBounds signalsRows (loopIndices (loadJobs env garbage lines).jobCount)
      ↔ (loadJobs env garbage lines).jobCount < signalsRows) := by
  have hsize : (loadJobs env garbage lines).arraySize
      = (allocation (loadJobs env garbage lines).jobCount).1 :=
    loadFold_arraySize env lines (LoadState.initial garbage) rfl
  obtain ⟨b1, b2⟩ := allocation_bounds (loadJobs env garbage lines).jobCount
  generalize (loadJobs env garbage lines).jobCount = N at hN hsize b1 b2 ⊢
  refine ⟨hsize, by omega, ?_, ?_, ?_⟩
  · intro i hi
    have := (mem_loopIndices N i).mp hi
    rw [b2 hN]
    omega
  · intro h
    have := h N ((mem_loopIndices N N).mpr ⟨hN, le_refl N⟩)
    simp only [jobStatusesLength] at this
    omega
  · constructor
    · intro h
      exact h N ((mem_loopIndices N N).mpr ⟨hN, le_refl N⟩)
    · intro h i hi
      have := (mem_loopIndices N i).mp hi
      omega

/-- Witness of C15: `runOnceJobFile` registers one job; `jobStatuses` then
has one element and the loops use index 1 on it. -/
theorem index_bounds_witness :
    (loadJobs sampleEnv 0 runOnceJobFile).jobCount = 1 ∧
    jobStatusesLength 1 = 1 ∧ loopIndices 1 = [1] ∧
    ((loadJobs sampleEnv 0 runOnceJobFile).arraySize
      = (allocation (loadJobs sampleEnv 0 runOnceJobFile).jobCount).1 ∧
    (loadJobs sampleEnv 0 runOnceJobFile).jobCount
      < (loadJobs sampleEnv 0 runOnceJobFile).arraySize ∧
    InBounds (allocation (loadJobs sampleEnv 0 runOnceJobFile).jobCount).2
      (loopIndices (loadJobs sampleEnv 0 runOnceJobFile).jobCount) ∧
    ¬ InBounds (jobStatusesLength (loadJobs sampleEnv 0 runOnceJobFile).jobCount)
      (loopIndices (loadJobs sampleEnv 0 runOnceJobFile).jobCount) ∧
    (InBounds signalsRows (loopIndices (loadJobs sampleEnv 0 runOnceJobFile).jobCount)
      ↔ (loadJobs sampleEnv 0 runOnceJobFile).jobCount < signalsRows)) :=
  ⟨by decide, rfl, by decide, index_bounds sampleEnv 0 runOnceJobFile (by decide)⟩

end Jobthing
